import Mathlib

set_option maxHeartbeats 8000000
set_option maxRecDepth 20000

/-!
Verification of the cwparse line-classification grammar.

The Rust source builds its parsers from nom combinators over `&str`. We model
a parser over a list of characters: it either fails (`none`) or returns the
remaining input together with a value. nom's recoverable `Err::Error` becomes
`none`; no parser in this grammar uses `Err::Failure` cuts, so the two-level
error distinction collapses soundly.
-/

namespace CW

abbrev P (α : Type) := List Char → Option (List Char × α)

/-- nom `map`. -/
def pmap {α β : Type} (p : P α) (f : α → β) : P β := fun l =>
  (p l).map (fun x => (x.1, f x.2))

/-- nom `alt` on two branches; `alt` with more branches is the right-nested chain. -/
def por {α : Type} (p q : P α) : P α := fun l =>
  match p l with
  | some x => some x
  | none => q l

/-- nom `pair` / two components of a `tuple`. -/
def pseq {α β : Type} (p : P α) (q : P β) : P (α × β) := fun l =>
  (p l).bind (fun x => (q x.1).map (fun y => (y.1, (x.2, y.2))))

/-- nom `preceded`. -/
def ppre {α β : Type} (p : P α) (q : P β) : P β := pmap (pseq p q) Prod.snd

/-- nom `terminated`. -/
def pterm {α β : Type} (p : P α) (q : P β) : P α := pmap (pseq p q) Prod.fst

/-- nom `delimited`. -/
def pdelim {α β γ : Type} (o : P α) (m : P β) (c : P γ) : P β := pterm (ppre o m) c

/-- nom `separated_pair`. -/
def psepPair {α β γ : Type} (p : P α) (s : P β) (q : P γ) : P (α × γ) :=
  pseq (pterm p s) q

/-- nom `opt`. -/
def popt {α : Type} (p : P α) : P (Option α) := fun l =>
  match p l with
  | some (r, v) => some (r, some v)
  | none => some (l, none)

/-- nom `all_consuming`. -/
def pallConsuming {α : Type} (p : P α) : P α := fun l =>
  match p l with
  | some ([], v) => some ([], v)
  | _ => none

/-- nom `Parser::and_then`: run `q` on the output slice of `p`; whatever `q`
leaves over inside that slice is discarded. -/
def pandThen {α : Type} (p : P (List Char)) (q : P α) : P α := fun l =>
  (p l).bind (fun x => (q x.2).map (fun y => (x.1, y.2)))

/-- nom `recognize`: return the consumed prefix as the value. -/
def precognize {α : Type} (p : P α) : P (List Char) := fun l =>
  (p l).map (fun x => (x.1, l.take (l.length - x.1.length)))

/-- nom `map_res`. -/
def pmapRes {α β : Type} (p : P α) (f : α → Option β) : P β := fun l =>
  (p l).bind (fun x => (f x.2).map (fun b => (x.1, b)))

/-- nom `tag`. -/
def ptag (s : List Char) : P (List Char) := fun l =>
  if l.take s.length = s then some (l.drop s.length, s) else none

/-- nom `char`. -/
def pchar (c : Char) : P Char := fun l =>
  match l with
  | x :: r => if x = c then some (r, c) else none
  | [] => none

/-- nom `eof`. -/
def peof : P (List Char) := fun l => if l = [] then some ([], []) else none

/-- nom `take`. -/
def ptake (n : Nat) : P (List Char) := fun l =>
  if n ≤ l.length then some (l.drop n, l.take n) else none

/-- nom `take_while`. -/
def ptakeWhile (pr : Char → Bool) : P (List Char) := fun l =>
  some (l.dropWhile pr, l.takeWhile pr)

/-- nom `take_while1`. -/
def ptakeWhile1 (pr : Char → Bool) : P (List Char) := fun l =>
  match l.takeWhile pr with
  | [] => none
  | c :: t => some (l.dropWhile pr, c :: t)

/-- nom `take_while_m_n`: greedily take up to `n` characters satisfying `pr`,
failing when fewer than `m` are available. -/
def ptakeWhileMN (m n : Nat) (pr : Char → Bool) : P (List Char) := fun l =>
  if m ≤ ((l.take n).takeWhile pr).length then
    some (l.drop ((l.take n).takeWhile pr).length, (l.take n).takeWhile pr)
  else none

/-- nom `count`, keeping only the consumption (the collected values are unused
at every call site of the source). -/
def pcount {α : Type} (p : P α) : Nat → P Unit
  | 0 => fun l => some (l, ())
  | n + 1 => fun l =>
    match p l with
    | some (r, _) => pcount p n r
    | none => none

/-- Fuel-indexed loop of nom `many0_count`; the fuel is the input length, which
suffices because an iteration only counts when it consumed at least one
character (nom errors out on a zero-length match, modelled by the length
check). -/
def many0CountAux {α : Type} (p : P α) : Nat → List Char → Option (List Char × Nat)
  | 0, l => some (l, 0)
  | fuel + 1, l =>
    match p l with
    | none => some (l, 0)
    | some (r, _) =>
      if r.length < l.length then
        match many0CountAux p fuel r with
        | some (r2, n) => some (r2, n + 1)
        | none => none
      else none

/-- nom `many0_count`. -/
def many0Count {α : Type} (p : P α) : P Nat := fun l => many0CountAux p l.length l

/-- `AsChar::is_hex_digit` (ASCII `0-9a-fA-F`). -/
def isHexD (c : Char) : Bool :=
  c.isDigit || ('a' ≤ c && c ≤ 'f') || ('A' ≤ c && c ≤ 'F')

/-- `char::is_ascii_whitespace`. -/
def isAsciiWs (c : Char) : Bool :=
  c = ' ' || c = '\t' || c = '\n' || c = '\x0c' || c = '\r'

/-- Character class accepted by the narrowing step of `identifier`. -/
def isIdChar (c : Char) : Bool :=
  c.isAlphanum || c = '<' || c = '>' || c = ',' || c = '_' || c = '$' ||
    c = '@' || c = '.' || c = '-'

/-- Character class of the `Unknown` fallback of `section_name`. -/
def isSecChar (c : Char) : Bool := c.isAlphanum || c = '_' || c = '.'

/-- nom `alpha1` (ASCII letters for `&str` via `AsChar::is_alpha`). -/
def alpha1 : P (List Char) := ptakeWhile1 Char.isAlpha

/-- nom `alphanumeric1`. -/
def alphanumeric1 : P (List Char) := ptakeWhile1 Char.isAlphanum

/-- nom `digit1`. -/
def digit1 : P (List Char) := ptakeWhile1 Char.isDigit

/-- nom `is_a`. -/
def pisA (s : List Char) : P (List Char) := ptakeWhile1 (fun c => s.contains c)

/-- Decimal value of a digit string. -/
def decVal (l : List Char) : Nat := l.foldl (fun a c => a * 10 + (c.toNat - 48)) 0

/-- Value of one hex digit. -/
def hexDigitVal (c : Char) : Nat :=
  if c.isDigit then c.toNat - 48 else if 'a' ≤ c then c.toNat - 87 else c.toNat - 55

/-- Base-16 value of a hex-digit string. -/
def hexVal (l : List Char) : Nat := l.foldl (fun a c => a * 16 + hexDigitVal c) 0

/-- `str::parse::<u32>` on a digit string: fails exactly on overflow. -/
def parseU32 (l : List Char) : Option Nat :=
  if decVal l < 2 ^ 32 then some (decVal l) else none

/-- `u8::from_str_radix(_, 10)` on a digit string. -/
def parseU8 (l : List Char) : Option Nat :=
  if decVal l < 2 ^ 8 then some (decVal l) else none

/-- `u32::from_str_radix(_, 16)` on a hex-digit string. -/
def hexU32 (l : List Char) : Option Nat :=
  if hexVal l < 2 ^ 32 then some (hexVal l) else none

namespace windows

/-- `windows::is_filename`. -/
def is_filename (c : Char) : Bool :=
  if c ≤ '\x1f' then false
  else
    match c with
    | '<' | '>' | ':' | '"' | '/' | '\\' | '|' | '?' | '*' => false
    | _ => true

/-- `windows::filename`. -/
def filename : P (List Char) :=
  precognize (psepPair (ptakeWhile1 (fun c => is_filename c && !(c = '.')))
    (pchar '.')
    (ptakeWhile1 (fun c => is_filename c && !isAsciiWs c)))

end windows

namespace map

inductive SectionName where
  | Bss | Ctors | Data | Dtors | ExTab | ExTabIndex | Init | RoData
  | SBss | SBss2 | SData | SData2 | Text
  | Unknown (name : List Char)
deriving DecidableEq

inductive DebugSectionName where
  | Main | Line | Abbrev | Aranges | Info | SfNames | SrcInfo | Str
deriving DecidableEq

inductive Identifier where
  | Relative (idx : Nat)
  | StringBase (idx : Nat)
  | Named (name : List Char) (inst : Option Nat)
  | Mangled (name : List Char)
  | Section (name : SectionName) (idx : Option Nat)
  | DotL (name : List Char)
deriving DecidableEq

structure Origin where
  obj : List Char
  src : Option (List Char)
  asm : Bool
deriving DecidableEq

/-- `map::padded`. -/
def padded (len : Nat) : P (List Char) := fun l =>
  if (l.takeWhile (fun c => c = ' ')).length ≤ len then
    ptake (len - (l.takeWhile (fun c => c = ' ')).length)
      (l.dropWhile (fun c => c = ' '))
  else none

/-- `map::hex`. -/
def hex (count : Nat) : P Nat := pmapRes (ptakeWhileMN count count isHexD) hexU32

/-- `map::c_name`. -/
def c_name : P (List Char) :=
  precognize (pseq (por alpha1 (ptag "_".toList))
    (many0Count (por alphanumeric1 (ptag "_".toList))))

/-- `map::cpp_name`. -/
def cpp_name : P (List Char) :=
  precognize (pseq (por alpha1 (pisA "_@".toList))
    (many0Count (por alphanumeric1 (pisA "_@$<>,-".toList))))

/-- `map::relative`. -/
def relative : P Nat := pmapRes (ppre (pchar '@') digit1) parseU32

/-- `map::instance` (named `instanceVal` because `instance` is reserved). -/
def instanceVal : P Nat := pmapRes (ppre (pchar '$') digit1) parseU32

/-- `map::extab`. -/
def extab : P SectionName :=
  pmap (pseq (pseq (pseq (popt (pchar '.')) (popt (pchar '_')))
      (ptag "extab".toList)) (popt (pchar '_')))
    (fun _ => SectionName.ExTab)

/-- `map::extabindex`. -/
def extabindex : P SectionName :=
  pmap (pseq (pseq (pseq (popt (pchar '.')) (popt (pchar '_')))
      (por (ptag "extabindex".toList) (ptag "exidx".toList))) (popt (pchar '_')))
    (fun _ => SectionName.ExTabIndex)

/-- `map::section_name`. -/
def section_name : P SectionName :=
  por extabindex (por extab (por
    (ppre (pchar '.')
      (por (pmap (ptag "bss".toList) (fun _ => SectionName.Bss))
      (por (pmap (ptag "ctors".toList) (fun _ => SectionName.Ctors))
      (por (pmap (ptag "data".toList) (fun _ => SectionName.Data))
      (por (pmap (ptag "dtors".toList) (fun _ => SectionName.Dtors))
      (por (pmap (ptag "init".toList) (fun _ => SectionName.Init))
      (por (pmap (ptag "rodata".toList) (fun _ => SectionName.RoData))
      (por (pmap (ptag "sbss2".toList) (fun _ => SectionName.SBss2))
      (por (pmap (ptag "sbss".toList) (fun _ => SectionName.SBss))
      (por (pmap (ptag "sdata2".toList) (fun _ => SectionName.SData2))
      (por (pmap (ptag "sdata".toList) (fun _ => SectionName.SData))
           (pmap (ptag "text".toList) (fun _ => SectionName.Text)))))))))))))
    (pmap (ppre (pchar '.') (ptakeWhile1 isSecChar)) SectionName.Unknown)))

/-- `map::section_symbol`. -/
def section_symbol : P (SectionName × Nat) :=
  pmap (pseq (ptag "..".toList)
       (pseq section_name
       (pseq (pchar '.') (pmapRes digit1 parseU8))))
    (fun x =>
      match x with
      | (_, sn, _, idx) => (sn, idx))

/-- `map::string_base`. -/
def string_base : P Identifier :=
  ppre (ptag "@stringBase".toList)
    (pmap (pmapRes digit1 parseU8) Identifier.StringBase)

/-- `map::identifier`. -/
def identifier : P Identifier :=
  pandThen (ptakeWhile1 isIdChar)
    (por (pallConsuming (pmap (ppre (ptag ".L".toList) c_name) Identifier.DotL))
    (por (pallConsuming (pmap relative Identifier.Relative))
    (por (pallConsuming (pmap section_symbol
            (fun x => Identifier.Section x.1 (some x.2))))
    (por (pallConsuming (pmap section_name (fun n => Identifier.Section n none)))
    (por (pallConsuming (pmap (pseq c_name (popt instanceVal))
            (fun x => Identifier.Named x.1 x.2)))
    (por (pallConsuming (pmap cpp_name Identifier.Mangled))
         (pallConsuming string_base)))))))

/-- `map::origin`. -/
def origin : P Origin :=
  pmap (psepPair windows.filename (pchar ' ')
      (por (pmap (pseq windows.filename
              (pmap (popt (ptag " (asm)".toList)) Option.isSome))
             (fun x => (some x.1, x.2)))
           (pmap (ptag "".toList)
             (fun _ => ((none : Option (List Char)), false)))))
    (fun x => { obj := x.1, src := x.2.1, asm := x.2.2 })

end map

namespace tree

inductive Ty where
  | None | Section | Object | Function
deriving DecidableEq

inductive Scope where
  | Global | Local | Weak
deriving DecidableEq

structure Specifier where
  ty : Ty
  scope : Scope
  origin : map.Origin
deriving DecidableEq

inductive Data where
  | Linker (name : List Char)
  | Object (id : map.Identifier) (spec : Specifier)
  | DuplicateIdentifier (id : map.Identifier)
  | DuplicateSpecifier (spec : Specifier)
deriving DecidableEq

structure Node where
  depth : Nat
  data : Data
deriving DecidableEq

/-- `tree::title`. -/
def title : P (List Char) := ppre (ptag "Link map of ".toList) map.c_name

/-- `tree::type` (renamed: `type` is reserved). -/
def ty : P Ty :=
  por (pmap (ptag "section".toList) (fun _ => Ty.Section))
  (por (pmap (ptag "object".toList) (fun _ => Ty.Object))
  (por (pmap (ptag "func".toList) (fun _ => Ty.Function))
       (pmap (ptag "notype".toList) (fun _ => Ty.None))))

/-- `tree::scope`. -/
def scope : P Scope :=
  por (pmap (ptag "global".toList) (fun _ => Scope.Global))
  (por (pmap (ptag "local".toList) (fun _ => Scope.Local))
       (pmap (ptag "weak".toList) (fun _ => Scope.Weak)))

/-- `tree::specifier`. -/
def specifier : P Specifier :=
  pmap (pseq (pterm (pdelim (pchar '(') (psepPair ty (pchar ',') scope) (pchar ')'))
          (pchar ' '))
        (ppre (ptag "found in ".toList) map.origin))
    (fun x => { ty := x.1.1, scope := x.1.2, origin := x.2 })

/-- `tree::linker_data`. -/
def linker_data : P Data :=
  pmap (pterm map.c_name (ptag " found as linker generated symbol".toList))
    Data.Linker

/-- `tree::object_data`. -/
def object_data : P Data :=
  pmap (pseq (pterm map.identifier (pchar ' ')) specifier)
    (fun x => Data.Object x.1 x.2)

/-- `tree::duplicate`. -/
def duplicate : P Data :=
  ppre (ptag ">>> ".toList)
    (por (pmap (ppre (ptag "UNREFERENCED DUPLICATE ".toList) map.identifier)
            Data.DuplicateIdentifier)
         (pmap specifier Data.DuplicateSpecifier))

/-- `tree::depth`. -/
def depth : P Nat :=
  pmapRes (pdelim (ptakeWhile (fun c => c = ' ')) digit1 (ptag "] ".toList)) parseU32

/-- `tree::node`. -/
def node : P Node :=
  pmap (pseq depth (por linker_data (por object_data duplicate)))
    (fun x => { depth := x.1, data := x.2 })

end tree

namespace section_table

inductive Data where
  | Parent (size : Nat) (align : Nat)
  | Child (parent : map.Identifier)
deriving DecidableEq

/-- The fields as they are populated by `section_table::symbol` (and asserted
by the crate's tests). -/
structure Symbol where
  addr : Nat
  virt_addr : Nat
  file_addr : Option Nat
  data : Data
  id : map.Identifier
  origin : map.Origin
deriving DecidableEq

/-- `section_table::title`. -/
def title : P map.SectionName := pterm map.section_name (ptag " section layout".toList)

/-- `section_table::columns0` (value collapsed to `Unit`; the source maps it to
the fixed `Line::SectionColumns0`, re-applied by the dispatcher). -/
def columns0 : P Unit :=
  pmap (pseq (pcount (pchar ' ') 2)
       (pseq (ptag "Starting".toList)
       (pseq (pcount (pchar ' ') 8) (ptag "Virtual".toList))))
    (fun _ => ())

/-- `section_table::columns1`. -/
def columns1 : P Unit :=
  pmap (pseq (pcount (pchar ' ') 2)
       (pseq (ptag "address".toList)
       (pseq (pcount (pchar ' ') 2)
       (pseq (ptag "Size".toList)
       (pseq (pcount (pchar ' ') 3) (ptag "address".toList))))))
    (fun _ => ())

/-- `section_table::separator`. -/
def separator : P Unit :=
  pmap (pseq (pcount (pchar ' ') 2) (pcount (pchar '-') 23)) (fun _ => ())

/-- `section_table::align`. -/
def align : P Nat := pmapRes (pandThen (map.padded 2) digit1) parseU8

/-- `section_table::parent_identifier`. -/
def parent_identifier : P map.Identifier :=
  pdelim (ptag "(entry of ".toList) map.identifier (pchar ')')

/-- `section_table::parent`. -/
def parent : P (Nat × Option Nat × Data × map.Identifier) :=
  pmap (pseq (pterm (map.hex 6) (pchar ' '))
       (pseq (pterm (map.hex 8) (pchar ' '))
       (pseq (popt (pterm (map.hex 8) (pchar ' ')))
       (pseq (pterm align (pchar ' ')) map.identifier))))
    (fun x =>
      match x with
      | (size, virt, file, al, id) => (virt, file, Data.Parent size al, id))

/-- `section_table::child`. -/
def child : P (Nat × Option Nat × Data × map.Identifier) :=
  pmap (pseq (pterm (pcount (pchar '0') 6) (pchar ' '))
       (pseq (pterm (map.hex 8) (pchar ' '))
       (pseq (popt (pterm (map.hex 8) (pchar ' ')))
       (pseq (pterm map.identifier (pchar ' ')) parent_identifier))))
    (fun x =>
      match x with
      | (_, virt, file, id, par) => (virt, file, Data.Child par, id))

/-- `section_table::unused`: byte-for-byte the same body as `child`; it is not
referenced by the dispatcher. -/
def unused : P (Nat × Option Nat × Data × map.Identifier) :=
  pmap (pseq (pterm (pcount (pchar '0') 6) (pchar ' '))
       (pseq (pterm (map.hex 8) (pchar ' '))
       (pseq (popt (pterm (map.hex 8) (pchar ' ')))
       (pseq (pterm map.identifier (pchar ' ')) parent_identifier))))
    (fun x =>
      match x with
      | (_, virt, file, id, par) => (virt, file, Data.Child par, id))

/-- `section_table::symbol`. -/
def symbol : P Symbol :=
  pmap (pseq (pdelim (pcount (pchar ' ') 2) (map.hex 8) (pchar ' '))
       (pseq (pterm (por parent child) (por (ptag " \t".toList) (ptag "\t".toList)))
        map.origin))
    (fun x =>
      match x with
      | (a, (virt, file, data, id), og) =>
        { addr := a, virt_addr := virt, file_addr := file, data := data,
          id := id, origin := og })

end section_table

namespace memory_table

inductive Data where
  | Main (name : map.SectionName) (virt_addr : Nat)
  | Debug (name : map.DebugSectionName)
deriving DecidableEq

structure Entry where
  data : Data
  size : Nat
  file_addr : Nat
deriving DecidableEq

/-- `memory_table::title`. -/
def title : P (List Char) := precognize (ptag "Memory map:".toList)

/-- `memory_table::columns0`. -/
def columns0 : P Unit :=
  pmap (pseq (pcount (pchar ' ') 19)
       (pseq (ptag "Starting".toList)
       (pseq (pchar ' ')
       (pseq (ptag "Size".toList)
       (pseq (pcount (pchar ' ') 5) (ptag "File".toList))))))
    (fun _ => ())

/-- `memory_table::columns1`. -/
def columns1 : P Unit :=
  pmap (pseq (pcount (pchar ' ') 19)
       (pseq (ptag "address".toList)
       (pseq (pcount (pchar ' ') 11) (ptag "Offset".toList))))
    (fun _ => ())

/-- `memory_table::entry`. -/
def entry : P Entry :=
  pmap (pseq (pterm (pandThen (map.padded 17) map.section_name) (pcount (pchar ' ') 2))
       (pseq (pterm (map.hex 8) (pchar ' '))
       (pseq (pterm (map.hex 8) (pchar ' ')) (map.hex 8))))
    (fun x =>
      match x with
      | (name, virt, size, file) =>
        { data := Data.Main name virt, size := size, file_addr := file })

/-- `memory_table::debug_section_name`. -/
def debug_section_name : P map.DebugSectionName :=
  ppre (pchar '.')
    (por (pmap (ptag "line".toList) (fun _ => map.DebugSectionName.Line))
      (ppre (ptag "debug".toList)
        (por (pmap peof (fun _ => map.DebugSectionName.Main))
          (ppre (pchar '_')
            (por (pmap (ptag "abbrev".toList) (fun _ => map.DebugSectionName.Abbrev))
            (por (pmap (ptag "aranges".toList) (fun _ => map.DebugSectionName.Aranges))
            (por (pmap (ptag "info".toList) (fun _ => map.DebugSectionName.Info))
            (por (pmap (ptag "line".toList) (fun _ => map.DebugSectionName.Info))
            (por (pmap (ptag "sfnames".toList) (fun _ => map.DebugSectionName.SfNames))
            (por (pmap (ptag "srcinfo".toList) (fun _ => map.DebugSectionName.SrcInfo))
                 (pmap (ptag "str".toList) (fun _ => map.DebugSectionName.Str))))))))))))

/-- `memory_table::debug_entry`. -/
def debug_entry : P Entry :=
  pmap (pseq (pterm (pandThen (map.padded 17) debug_section_name) (pcount (pchar ' ') 11))
       (pseq (pterm (map.hex 6) (pchar ' ')) (map.hex 8)))
    (fun x =>
      match x with
      | (name, size, file) =>
        { data := Data.Debug name, size := size, file_addr := file })

end memory_table

namespace linker_table

structure Entry where
  name : List Char
  virt_addr : Nat
deriving DecidableEq

/-- `linker_table::title`. -/
def title : P Unit := pmap (ptag "Linker generated symbols:".toList) (fun _ => ())

/-- `linker_table::entry`. -/
def entry : P Entry :=
  pmap (pseq (pterm (pandThen (map.padded 25) map.c_name) (pchar ' ')) (map.hex 8))
    (fun x => { name := x.1, virt_addr := x.2 })

end linker_table

namespace map

inductive Line where
  | Empty
  | TreeTitle (name : List Char)
  | TreeNode (node : tree.Node)
  | SectionTitle (name : SectionName)
  | SectionColumns0
  | SectionColumns1
  | SectionSeparator
  | SectionSymbol (sym : section_table.Symbol)
  | MemoryTitle
  | MemoryColumns0
  | MemoryColumns1
  | MemoryEntry (e : memory_table.Entry)
  | LinkerTitle
  | LinkerEntry (e : linker_table.Entry)
deriving DecidableEq

/-- Alternative 0 of `map::line`: `map(eof, |_| Empty)`. -/
def alt0 : P Line := pmap peof (fun _ => Line.Empty)

/-- Alternative 1: `all_consuming(map(tree::title, TreeTitle))`. -/
def alt1 : P Line := pallConsuming (pmap tree.title Line.TreeTitle)

/-- Alternative 2: tree node. -/
def alt2 : P Line := pallConsuming (pmap tree.node Line.TreeNode)

/-- Alternative 3: section-table title. -/
def alt3 : P Line := pallConsuming (pmap section_table.title Line.SectionTitle)

/-- Alternative 4: first section column header. -/
def alt4 : P Line := pallConsuming (pmap section_table.columns0 (fun _ => Line.SectionColumns0))

/-- Alternative 5: second section column header. -/
def alt5 : P Line := pallConsuming (pmap section_table.columns1 (fun _ => Line.SectionColumns1))

/-- Alternative 6: section separator. -/
def alt6 : P Line := pallConsuming (pmap section_table.separator (fun _ => Line.SectionSeparator))

/-- Alternative 7: section symbol row. -/
def alt7 : P Line := pallConsuming (pmap section_table.symbol Line.SectionSymbol)

/-- Alternative 8: memory-table title. -/
def alt8 : P Line := pallConsuming (pmap memory_table.title (fun _ => Line.MemoryTitle))

/-- Alternative 9: first memory column header. -/
def alt9 : P Line := pallConsuming (pmap memory_table.columns0 (fun _ => Line.MemoryColumns0))

/-- Alternative 10: second memory column header. -/
def alt10 : P Line := pallConsuming (pmap memory_table.columns1 (fun _ => Line.MemoryColumns1))

/-- Alternative 11: main memory entry. -/
def alt11 : P Line := pallConsuming (pmap memory_table.entry Line.MemoryEntry)

/-- Alternative 12: debug memory entry. -/
def alt12 : P Line := pallConsuming (pmap memory_table.debug_entry Line.MemoryEntry)

/-- Alternative 13: linker-table title. -/
def alt13 : P Line := pallConsuming (pmap linker_table.title (fun _ => Line.LinkerTitle))

/-- Alternative 14: linker-table entry. -/
def alt14 : P Line := pallConsuming (pmap linker_table.entry Line.LinkerEntry)

/-- The ordered alternatives of `map::line`, by index. -/
def lineAlt (n : Nat) : P Line :=
  match n with
  | 0 => alt0 | 1 => alt1 | 2 => alt2 | 3 => alt3 | 4 => alt4
  | 5 => alt5 | 6 => alt6 | 7 => alt7 | 8 => alt8 | 9 => alt9
  | 10 => alt10 | 11 => alt11 | 12 => alt12 | 13 => alt13 | _ => alt14

/-- Helper for `str::trim_end_matches("\r\n")`: strip `\n\r` pairs from the
reversed list. -/
def dropCrlfRev : List Char → List Char
  | '\n' :: '\r' :: t => dropCrlfRev t
  | l => l

/-- `str::trim_end_matches("\r\n")`. -/
def trimEndCrlf (l : List Char) : List Char := (dropCrlfRev l.reverse).reverse

/-- `map::line`: trim the terminator, then the ordered alternation. -/
def line : P Line := fun input =>
  (por alt0 (por alt1 (por alt2 (por alt3 (por alt4 (por alt5 (por alt6 (por alt7
    (por alt8 (por alt9 (por alt10 (por alt11 (por alt12 (por alt13 alt14))))))))))))))
    (trimEndCrlf input)

end map

/-- Boolean discriminator for the StringBase identifier variant. -/
def isStrBase : map.Identifier → Bool
  | map.Identifier.StringBase _ => true
  | _ => false

/-! ## Inversion lemmas for the combinators -/

theorem pmap_eq_some {α β : Type} {p : P α} {f : α → β} {l r : List Char} {v : β} :
    pmap p f l = some (r, v) ↔ ∃ u, p l = some (r, u) ∧ v = f u := by
  simp only [pmap, Option.map_eq_some']
  constructor
  · rintro ⟨⟨r2, u⟩, h1, h2⟩
    obtain ⟨rfl, rfl⟩ := Prod.mk.injEq .. ▸ h2
    exact ⟨u, h1, rfl⟩
  · rintro ⟨u, h1, rfl⟩
    exact ⟨(r, u), h1, rfl⟩

theorem por_eq_some {α : Type} {p q : P α} {l : List Char} {x : List Char × α} :
    por p q l = some x ↔ p l = some x ∨ (p l = none ∧ q l = some x) := by
  unfold por
  cases h : p l <;> simp

theorem pseq_eq_some {α β : Type} {p : P α} {q : P β} {l r : List Char} {v : α × β} :
    pseq p q l = some (r, v) ↔
      ∃ m a b, p l = some (m, a) ∧ q m = some (r, b) ∧ v = (a, b) := by
  simp only [pseq, Option.bind_eq_some, Option.map_eq_some']
  constructor
  · rintro ⟨⟨m, a⟩, h1, ⟨r2, b⟩, h2, h3⟩
    obtain ⟨rfl, rfl⟩ := Prod.mk.injEq .. ▸ h3
    exact ⟨m, a, b, h1, h2, rfl⟩
  · rintro ⟨m, a, b, h1, h2, rfl⟩
    exact ⟨(m, a), h1, (r, b), h2, rfl⟩

theorem someInj2 {α : Type} {r1 r2 : List Char} {a1 a2 : α}
    (h : (some (r1, a1) : Option (List Char × α)) = some (r2, a2)) :
    r1 = r2 ∧ a1 = a2 := by
  injection h with h1
  exact ⟨congrArg Prod.fst h1, congrArg Prod.snd h1⟩

theorem ppre_eq_some {α β : Type} {p : P α} {q : P β} {l r : List Char} {v : β} :
    ppre p q l = some (r, v) ↔ ∃ m a, p l = some (m, a) ∧ q m = some (r, v) := by
  constructor
  · intro h
    obtain ⟨u, h1, h2⟩ := pmap_eq_some.mp h
    obtain ⟨m, a, b, h3, h4, rfl⟩ := pseq_eq_some.mp h1
    subst h2
    exact ⟨m, a, h3, h4⟩
  · rintro ⟨m, a, h1, h2⟩
    exact pmap_eq_some.mpr ⟨(a, v), pseq_eq_some.mpr ⟨m, a, v, h1, h2, rfl⟩, rfl⟩

theorem pterm_eq_some {α β : Type} {p : P α} {q : P β} {l r : List Char} {v : α} :
    pterm p q l = some (r, v) ↔ ∃ m b, p l = some (m, v) ∧ q m = some (r, b) := by
  constructor
  · intro h
    obtain ⟨u, h1, h2⟩ := pmap_eq_some.mp h
    obtain ⟨m, a, b, h3, h4, rfl⟩ := pseq_eq_some.mp h1
    subst h2
    exact ⟨m, b, h3, h4⟩
  · rintro ⟨m, b, h1, h2⟩
    exact pmap_eq_some.mpr ⟨(v, b), pseq_eq_some.mpr ⟨m, v, b, h1, h2, rfl⟩, rfl⟩

theorem pdelim_eq_some {α β γ : Type} {o : P α} {m : P β} {c : P γ}
    {l r : List Char} {v : β} :
    pdelim o m c l = some (r, v) ↔
      ∃ m1 a m2 b, o l = some (m1, a) ∧ m m1 = some (m2, v) ∧ c m2 = some (r, b) := by
  unfold pdelim
  rw [pterm_eq_some]
  constructor
  · rintro ⟨m2, b, h1, h2⟩
    rw [ppre_eq_some] at h1
    obtain ⟨m1, a, ha, hb⟩ := h1
    exact ⟨m1, a, m2, b, ha, hb, h2⟩
  · rintro ⟨m1, a, m2, b, h1, h2, h3⟩
    exact ⟨m2, b, ppre_eq_some.mpr ⟨m1, a, h1, h2⟩, h3⟩

theorem psepPair_eq_some {α β γ : Type} {p : P α} {s : P β} {q : P γ}
    {l r : List Char} {v : α × γ} :
    psepPair p s q l = some (r, v) ↔
      ∃ m1 m2 b, p l = some (m1, v.1) ∧ s m1 = some (m2, b) ∧ q m2 = some (r, v.2) := by
  unfold psepPair
  rw [pseq_eq_some]
  constructor
  · rintro ⟨m2, a, c, h1, h2, hv⟩
    rw [pterm_eq_some] at h1
    obtain ⟨m1, b, ha, hb⟩ := h1
    subst hv
    exact ⟨m1, m2, b, ha, hb, h2⟩
  · rintro ⟨m1, m2, b, h1, h2, h3⟩
    obtain ⟨v1, v2⟩ := v
    exact ⟨m2, v1, v2, pterm_eq_some.mpr ⟨m1, b, h1, h2⟩, h3, rfl⟩

theorem popt_eq_some {α : Type} {p : P α} {l r : List Char} {o : Option α} :
    popt p l = some (r, o) ↔
      (∃ u, p l = some (r, u) ∧ o = some u) ∨ (p l = none ∧ r = l ∧ o = none) := by
  unfold popt
  cases h : p l with
  | none =>
    constructor
    · intro h2
      obtain ⟨h3, h4⟩ := someInj2 h2
      exact Or.inr ⟨rfl, h3.symm, h4.symm⟩
    · rintro (⟨u, h1, -⟩ | ⟨-, rfl, rfl⟩)
      · exact Option.noConfusion h1
      · rfl
  | some x =>
    obtain ⟨r2, u⟩ := x
    constructor
    · intro h2
      obtain ⟨h3, h4⟩ := someInj2 h2
      exact Or.inl ⟨u, by rw [h3], h4.symm⟩
    · rintro (⟨u2, h1, rfl⟩ | ⟨h1, -, -⟩)
      · obtain ⟨h3, h4⟩ := someInj2 h1
        rw [h3, h4]
      · exact Option.noConfusion h1

theorem pallConsuming_eq_some {α : Type} {p : P α} {l r : List Char} {v : α} :
    pallConsuming p l = some (r, v) ↔ r = [] ∧ p l = some ([], v) := by
  unfold pallConsuming
  cases h : p l with
  | none =>
    constructor
    · intro h2; exact Option.noConfusion h2
    · rintro ⟨rfl, h2⟩; exact Option.noConfusion h2
  | some x =>
    obtain ⟨r2, u⟩ := x
    cases r2 with
    | nil =>
      constructor
      · intro h2
        obtain ⟨h3, h4⟩ := someInj2 h2
        exact ⟨h3.symm, by rw [h4]⟩
      · rintro ⟨rfl, h2⟩
        obtain ⟨-, h4⟩ := someInj2 h2
        rw [h4]
    | cons a t =>
      constructor
      · intro h2; exact Option.noConfusion h2
      · rintro ⟨rfl, h2⟩
        obtain ⟨h3, -⟩ := someInj2 h2
        cases h3

theorem pandThen_eq_some {α : Type} {p : P (List Char)} {q : P α}
    {l r : List Char} {v : α} :
    pandThen p q l = some (r, v) ↔
      ∃ t m, p l = some (r, t) ∧ q t = some (m, v) := by
  simp only [pandThen, Option.bind_eq_some, Option.map_eq_some']
  constructor
  · rintro ⟨⟨r2, t⟩, h1, ⟨m, u⟩, h2, h3⟩
    obtain ⟨rfl, rfl⟩ := Prod.mk.injEq .. ▸ h3
    exact ⟨t, m, h1, h2⟩
  · rintro ⟨t, m, h1, h2⟩
    exact ⟨(r, t), h1, (m, v), h2, rfl⟩

theorem precognize_eq_some {α : Type} {p : P α} {l r t : List Char} :
    precognize p l = some (r, t) ↔
      ∃ v, p l = some (r, v) ∧ t = l.take (l.length - r.length) := by
  simp only [precognize, Option.map_eq_some']
  constructor
  · rintro ⟨⟨r2, u⟩, h1, h2⟩
    obtain ⟨rfl, rfl⟩ := Prod.mk.injEq .. ▸ h2
    exact ⟨u, h1, rfl⟩
  · rintro ⟨u, h1, rfl⟩
    exact ⟨(r, u), h1, rfl⟩

theorem pmapRes_eq_some {α β : Type} {p : P α} {f : α → Option β}
    {l r : List Char} {v : β} :
    pmapRes p f l = some (r, v) ↔ ∃ a, p l = some (r, a) ∧ f a = some v := by
  simp only [pmapRes, Option.bind_eq_some, Option.map_eq_some']
  constructor
  · rintro ⟨⟨r2, a⟩, h1, b, h2, h3⟩
    obtain ⟨rfl, rfl⟩ := Prod.mk.injEq .. ▸ h3
    exact ⟨a, h1, h2⟩
  · rintro ⟨a, h1, h2⟩
    exact ⟨(r, a), h1, v, h2, rfl⟩

theorem ptag_eq_some {s l r v : List Char} :
    ptag s l = some (r, v) ↔ l = s ++ r ∧ v = s := by
  unfold ptag
  split
  · next h =>
    have hl : l = s ++ l.drop s.length := by
      conv_lhs => rw [← List.take_append_drop s.length l]
      rw [h]
    constructor
    · intro h2
      obtain ⟨h3, h4⟩ := someInj2 h2
      exact ⟨by rw [h3] at hl; exact hl, h4.symm⟩
    · rintro ⟨rfl, rfl⟩
      rw [List.drop_left]
  · next h =>
    constructor
    · intro h2; exact Option.noConfusion h2
    · rintro ⟨rfl, rfl⟩
      exact absurd (List.take_left _ _) h

theorem pchar_eq_some {c : Char} {l r : List Char} {v : Char} :
    pchar c l = some (r, v) ↔ l = c :: r ∧ v = c := by
  cases l with
  | nil =>
    constructor
    · intro h2; exact Option.noConfusion h2
    · rintro ⟨h2, -⟩; cases h2
  | cons x t =>
    show (if x = c then some (t, c) else none) = some (r, v) ↔ _
    by_cases hx : x = c
    · rw [if_pos hx]
      constructor
      · intro h2
        obtain ⟨h3, h4⟩ := someInj2 h2
        exact ⟨by rw [h3, hx], h4.symm⟩
      · rintro ⟨h2, rfl⟩
        have h3 : x = v ∧ t = r := List.cons.injEq .. ▸ h2
        rw [h3.2]
    · rw [if_neg hx]
      constructor
      · intro h2; exact Option.noConfusion h2
      · rintro ⟨h2, rfl⟩
        have h3 : x = v ∧ t = r := List.cons.injEq .. ▸ h2
        exact absurd h3.1 hx

theorem peof_eq_some {l r v : List Char} :
    peof l = some (r, v) ↔ l = [] ∧ r = [] ∧ v = [] := by
  unfold peof
  split
  · next h =>
    constructor
    · intro h2
      obtain ⟨h3, h4⟩ := someInj2 h2
      exact ⟨h, h3.symm, h4.symm⟩
    · rintro ⟨-, rfl, rfl⟩; rfl
  · next h =>
    constructor
    · intro h2; exact Option.noConfusion h2
    · rintro ⟨h2, -, -⟩; exact absurd h2 h

theorem ptake_eq_some {n : Nat} {l r t : List Char} :
    ptake n l = some (r, t) ↔ n ≤ l.length ∧ r = l.drop n ∧ t = l.take n := by
  unfold ptake
  split
  · next h =>
    constructor
    · intro h2
      obtain ⟨h3, h4⟩ := someInj2 h2
      exact ⟨h, h3.symm, h4.symm⟩
    · rintro ⟨-, rfl, rfl⟩; rfl
  · next h =>
    constructor
    · intro h2; exact Option.noConfusion h2
    · rintro ⟨h2, -, -⟩; exact absurd h2 h

theorem ptakeWhile1_eq_some {pr : Char → Bool} {l r t : List Char} :
    ptakeWhile1 pr l = some (r, t) ↔
      t = l.takeWhile pr ∧ r = l.dropWhile pr ∧ t ≠ [] := by
  unfold ptakeWhile1
  cases h : l.takeWhile pr with
  | nil =>
    constructor
    · intro h2; exact Option.noConfusion h2
    · rintro ⟨rfl, -, h3⟩; exact (h3 rfl).elim
  | cons c ts =>
    constructor
    · intro h2
      obtain ⟨h3, h4⟩ := someInj2 h2
      refine ⟨h4.symm, h3.symm, ?_⟩
      intro hh
      rw [hh] at h4
      cases h4
    · rintro ⟨rfl, rfl, -⟩; rfl

theorem ptakeWhileMN_eq_some {m n : Nat} {pr : Char → Bool} {l r t : List Char} :
    ptakeWhileMN m n pr l = some (r, t) ↔
      t = (l.take n).takeWhile pr ∧ m ≤ t.length ∧ r = l.drop t.length := by
  unfold ptakeWhileMN
  split
  · next h =>
    constructor
    · intro h2
      obtain ⟨h3, h4⟩ := someInj2 h2
      exact ⟨h4.symm, h4 ▸ h, by rw [← h4]; exact h3.symm⟩
    · rintro ⟨rfl, -, rfl⟩; rfl
  · next h =>
    constructor
    · intro h2; exact Option.noConfusion h2
    · rintro ⟨rfl, h5, -⟩; exact absurd h5 h

theorem pcount_pchar_eq_some {c : Char} {n : Nat} {l r : List Char} {u : Unit} :
    pcount (pchar c) n l = some (r, u) ↔ l = List.replicate n c ++ r := by
  induction n generalizing l with
  | zero =>
    unfold pcount
    constructor
    · intro h2
      obtain ⟨h3, -⟩ := someInj2 h2
      simpa using h3
    · intro h2
      simp only [List.replicate, List.nil_append] at h2
      rw [h2]
  | succ k ih =>
    unfold pcount
    cases l with
    | nil =>
      have hp : pchar c [] = none := rfl
      rw [hp]
      constructor
      · intro h2; exact Option.noConfusion h2
      · intro h2
        rw [List.replicate_succ] at h2
        cases h2
    | cons x t =>
      by_cases hx : x = c
      · subst hx
        have hp : pchar x (x :: t) = some (t, x) := pchar_eq_some.mpr ⟨rfl, rfl⟩
        rw [hp]
        show pcount (pchar x) k t = some (r, u) ↔ _
        rw [ih]
        simp [List.replicate_succ]
      · have hp : pchar c (x :: t) = none := by
          show (if x = c then some (t, c) else none) = none
          rw [if_neg hx]
        rw [hp]
        show (none : Option (List Char × Unit)) = some (r, u) ↔ _
        constructor
        · intro h2; exact Option.noConfusion h2
        · intro h2
          rw [List.replicate_succ, List.cons_append] at h2
          have h3 : x = c ∧ t = List.replicate k c ++ r := List.cons.injEq .. ▸ h2
          exact absurd h3.1 hx

/-! ## List and character helper lemmas -/

theorem takeWhile_append_all {p : Char → Bool} {a : List Char}
    (h : ∀ c ∈ a, p c = true) (l : List Char) :
    (a ++ l).takeWhile p = a ++ l.takeWhile p := by
  induction a with
  | nil => simp
  | cons x t ih =>
    have hx : p x = true := h x (by simp)
    simp only [List.cons_append, List.takeWhile_cons, hx, if_true]
    rw [ih (fun c hc => h c (by simp [hc]))]

theorem dropWhile_append_all {p : Char → Bool} {a : List Char}
    (h : ∀ c ∈ a, p c = true) (l : List Char) :
    (a ++ l).dropWhile p = l.dropWhile p := by
  induction a with
  | nil => simp
  | cons x t ih =>
    have hx : p x = true := h x (by simp)
    simp only [List.cons_append, List.dropWhile_cons, hx, if_true]
    exact ih (fun c hc => h c (by simp [hc]))

theorem takeWhile_head_false {p : Char → Bool} {l : List Char} {c : Char}
    (hh : l.head? = some c) (hc : p c = false) : l.takeWhile p = [] := by
  cases l with
  | nil => cases hh
  | cons x t =>
    obtain rfl : x = c := by simpa using hh
    simp [List.takeWhile_cons, hc]

theorem dropWhile_head_false {p : Char → Bool} {l : List Char} {c : Char}
    (hh : l.head? = some c) (hc : p c = false) : l.dropWhile p = l := by
  cases l with
  | nil => cases hh
  | cons x t =>
    obtain rfl : x = c := by simpa using hh
    simp [List.dropWhile_cons, hc]

theorem head?_dropWhile_false {p : Char → Bool} {l : List Char} {c : Char}
    (hh : (l.dropWhile p).head? = some c) : p c = false := by
  induction l with
  | nil => cases hh
  | cons x t ih =>
    rw [List.dropWhile_cons] at hh
    by_cases hx : p x
    · rw [if_pos hx] at hh
      exact ih hh
    · rw [if_neg hx] at hh
      obtain rfl : x = c := by simpa using hh
      exact Bool.eq_false_iff.mpr hx

theorem head?_take {l : List Char} {n : Nat} {c : Char}
    (hh : (l.take n).head? = some c) : l.head? = some c := by
  cases l with
  | nil => rw [List.take_nil] at hh; cases hh
  | cons x s =>
    cases n with
    | zero => cases hh
    | succ k => simpa using hh

theorem head?_append_left {a b : List Char} {c : Char}
    (h : a.head? = some c) : (a ++ b).head? = some c := by
  cases a with
  | nil => cases h
  | cons x t => simpa using h

theorem head?_eq_of_append_eq {a b l : List Char}
    (h : l = a ++ b) (hne : a ≠ []) : l.head? = a.head? := by
  subst h
  cases a with
  | nil => exact absurd rfl hne
  | cons x t => rfl

theorem drop_append_of_le_length {a b : List Char} {n : Nat} (h : n ≤ a.length) :
    (a ++ b).drop n = a.drop n ++ b := by
  induction a generalizing n with
  | nil =>
    have hn : n = 0 := by simpa using h
    subst hn
    simp
  | cons x t ih =>
    cases n with
    | zero => simp
    | succ k =>
      simp only [List.cons_append, List.drop_succ_cons]
      exact ih (by simpa using h)

theorem mem_of_mem_drop {l : List Char} {n : Nat} {c : Char}
    (h : c ∈ l.drop n) : c ∈ l := List.drop_subset n l h

theorem isAlpha_isDigit_false {c : Char} (h : c.isAlpha = true) :
    c.isDigit = false := by
  simp [Char.isAlpha, Char.isUpper, Char.isLower, Char.isDigit, Char.le_def,
    UInt32.le_def, UInt32.lt_def, BitVec.le_def, BitVec.lt_def] at *
  rcases h with ⟨h1, h2⟩ | ⟨h1, h2⟩ <;> intro hle <;> omega

theorem isDigit_isAlphanum {c : Char} (h : c.isDigit = true) :
    c.isAlphanum = true := by
  simp [Char.isAlphanum, h]

/-! ## Consumption lemmas: every parser returns a suffix of its input,
consuming only characters of a stated class and at least a stated number. -/

def ConsumesOnly {α : Type} (cls : Char → Prop) (p : P α) : Prop :=
  ∀ l r v, p l = some (r, v) → ∃ t, l = t ++ r ∧ ∀ c ∈ t, cls c

def MinConsume {α : Type} (k : Nat) (p : P α) : Prop :=
  ∀ l r v, p l = some (r, v) → r.length + k ≤ l.length

theorem co_mono {α : Type} {cls cls2 : Char → Prop} {p : P α}
    (hsub : ∀ c, cls c → cls2 c) (h : ConsumesOnly cls p) : ConsumesOnly cls2 p := by
  intro l r v hp
  obtain ⟨t, rfl, ht⟩ := h l r v hp
  exact ⟨t, rfl, fun c hc => hsub c (ht c hc)⟩

theorem co_pmap {α β : Type} {cls : Char → Prop} {p : P α} {f : α → β}
    (h : ConsumesOnly cls p) : ConsumesOnly cls (pmap p f) := by
  intro l r v hp
  obtain ⟨u, hu, -⟩ := pmap_eq_some.mp hp
  exact h l r u hu

theorem co_pmapRes {α β : Type} {cls : Char → Prop} {p : P α} {f : α → Option β}
    (h : ConsumesOnly cls p) : ConsumesOnly cls (pmapRes p f) := by
  intro l r v hp
  obtain ⟨u, hu, -⟩ := pmapRes_eq_some.mp hp
  exact h l r u hu

theorem co_por {α : Type} {cls : Char → Prop} {p q : P α}
    (hp : ConsumesOnly cls p) (hq : ConsumesOnly cls q) :
    ConsumesOnly cls (por p q) := by
  intro l r v h
  rcases por_eq_some.mp h with h1 | ⟨-, h1⟩
  · exact hp l r v h1
  · exact hq l r v h1

theorem co_pseq {α β : Type} {cls : Char → Prop} {p : P α} {q : P β}
    (hp : ConsumesOnly cls p) (hq : ConsumesOnly cls q) :
    ConsumesOnly cls (pseq p q) := by
  intro l r v h
  obtain ⟨m, a, b, h1, h2, -⟩ := pseq_eq_some.mp h
  obtain ⟨t1, rfl, ht1⟩ := hp l m a h1
  obtain ⟨t2, rfl, ht2⟩ := hq m r b h2
  refine ⟨t1 ++ t2, by rw [List.append_assoc], ?_⟩
  intro c hc
  rcases List.mem_append.mp hc with hc | hc
  · exact ht1 c hc
  · exact ht2 c hc

theorem co_ppre {α β : Type} {cls : Char → Prop} {p : P α} {q : P β}
    (hp : ConsumesOnly cls p) (hq : ConsumesOnly cls q) :
    ConsumesOnly cls (ppre p q) :=
  co_pmap (co_pseq hp hq)

theorem co_pterm {α β : Type} {cls : Char → Prop} {p : P α} {q : P β}
    (hp : ConsumesOnly cls p) (hq : ConsumesOnly cls q) :
    ConsumesOnly cls (pterm p q) :=
  co_pmap (co_pseq hp hq)

theorem co_popt {α : Type} {cls : Char → Prop} {p : P α}
    (hp : ConsumesOnly cls p) : ConsumesOnly cls (popt p) := by
  intro l r v h
  rcases popt_eq_some.mp h with ⟨u, h1, -⟩ | ⟨-, rfl, -⟩
  · exact hp l r u h1
  · exact ⟨[], rfl, by simp⟩

theorem co_ptag {cls : Char → Prop} {s : List Char}
    (hs : ∀ c ∈ s, cls c) : ConsumesOnly cls (ptag s) := by
  intro l r v h
  obtain ⟨rfl, -⟩ := ptag_eq_some.mp h
  exact ⟨s, rfl, hs⟩

theorem co_pchar {cls : Char → Prop} {c : Char} (hc : cls c) :
    ConsumesOnly cls (pchar c) := by
  intro l r v h
  obtain ⟨rfl, -⟩ := pchar_eq_some.mp h
  exact ⟨[c], rfl, by simpa⟩

theorem co_peof {cls : Char → Prop} : ConsumesOnly cls peof := by
  intro l r v h
  obtain ⟨rfl, rfl, -⟩ := peof_eq_some.mp h
  exact ⟨[], rfl, by simp⟩

theorem co_ptakeWhile1 {cls : Char → Prop} {pr : Char → Bool}
    (hpr : ∀ c, pr c = true → cls c) : ConsumesOnly cls (ptakeWhile1 pr) := by
  intro l r v h
  obtain ⟨rfl, rfl, -⟩ := ptakeWhile1_eq_some.mp h
  exact ⟨l.takeWhile pr, (List.takeWhile_append_dropWhile pr l).symm,
    fun c hc => hpr c (List.mem_takeWhile_imp hc)⟩

theorem co_ptakeWhile {cls : Char → Prop} {pr : Char → Bool}
    (hpr : ∀ c, pr c = true → cls c) : ConsumesOnly cls (ptakeWhile pr) := by
  intro l r v h
  obtain ⟨h1, h2⟩ := someInj2 h
  refine ⟨l.takeWhile pr, by rw [← h1, List.takeWhile_append_dropWhile], ?_⟩
  exact fun c hc => hpr c (List.mem_takeWhile_imp hc)

theorem co_many0CountAux {α : Type} {cls : Char → Prop} {p : P α}
    (hp : ConsumesOnly cls p) :
    ∀ fuel l r n, many0CountAux p fuel l = some (r, n) →
      ∃ t, l = t ++ r ∧ ∀ c ∈ t, cls c := by
  intro fuel
  induction fuel with
  | zero =>
    intro l r n h
    obtain ⟨h1, -⟩ := someInj2 h
    exact ⟨[], by simp [h1], by simp⟩
  | succ k ih =>
    intro l r n h
    unfold many0CountAux at h
    cases hpl : p l with
    | none =>
      rw [hpl] at h
      have h2 : (some (l, 0) : Option (List Char × Nat)) = some (r, n) := h
      obtain ⟨h1, -⟩ := someInj2 h2
      exact ⟨[], by simp [h1], by simp⟩
    | some x =>
      obtain ⟨r1, a⟩ := x
      rw [hpl] at h
      have h2 : (if r1.length < l.length then
          (match many0CountAux p k r1 with
           | some (r2, n2) => some (r2, n2 + 1)
           | none => none)
          else none) = some (r, n) := h
      by_cases hlen : r1.length < l.length
      · rw [if_pos hlen] at h2
        cases hin : many0CountAux p k r1 with
        | none =>
          rw [hin] at h2
          exact Option.noConfusion h2
        | some y =>
          obtain ⟨r2, n2⟩ := y
          rw [hin] at h2
          have h3 : (some (r2, n2 + 1) : Option (List Char × Nat)) = some (r, n) := h2
          obtain ⟨h1, -⟩ := someInj2 h3
          obtain ⟨t1, rfl, ht1⟩ := hp l r1 a hpl
          obtain ⟨t2, rfl, ht2⟩ := ih r1 r2 n2 hin
          subst h1
          refine ⟨t1 ++ t2, by rw [List.append_assoc], ?_⟩
          intro c hc
          rcases List.mem_append.mp hc with hc | hc
          · exact ht1 c hc
          · exact ht2 c hc
      · rw [if_neg hlen] at h2
        exact Option.noConfusion h2

theorem co_many0Count {α : Type} {cls : Char → Prop} {p : P α}
    (hp : ConsumesOnly cls p) : ConsumesOnly cls (many0Count p) := by
  intro l r v h
  exact co_many0CountAux hp l.length l r v h

theorem co_precognize {α : Type} {cls : Char → Prop} {p : P α}
    (hp : ConsumesOnly cls p) : ConsumesOnly cls (precognize p) := by
  intro l r v h
  obtain ⟨u, hu, -⟩ := precognize_eq_some.mp h
  exact hp l r u hu

theorem co_pandThen {α : Type} {cls : Char → Prop} {p : P (List Char)} {q : P α}
    (hp : ConsumesOnly cls p) : ConsumesOnly cls (pandThen p q) := by
  intro l r v h
  obtain ⟨t, m, h1, -⟩ := pandThen_eq_some.mp h
  exact hp l r t h1

theorem co_pallConsuming {α : Type} {cls : Char → Prop} {p : P α}
    (hp : ConsumesOnly cls p) : ConsumesOnly cls (pallConsuming p) := by
  intro l r v h
  obtain ⟨rfl, h1⟩ := pallConsuming_eq_some.mp h
  exact hp l [] v h1

theorem mc_of_co {α : Type} {cls : Char → Prop} {p : P α}
    (hp : ConsumesOnly cls p) : MinConsume 0 p := by
  intro l r v h
  obtain ⟨t, rfl, -⟩ := hp l r v h
  simp

theorem mc_weaken {α : Type} {k k2 : Nat} {p : P α} (hle : k2 ≤ k)
    (hp : MinConsume k p) : MinConsume k2 p := by
  intro l r v h
  have := hp l r v h
  omega

theorem mc_weaken2 {α : Type} {k k2 : Nat} {p : P α}
    (hp : MinConsume k p) (hle : k2 ≤ k) : MinConsume k2 p :=
  mc_weaken hle hp

theorem mc_pmap {α β : Type} {k : Nat} {p : P α} {f : α → β}
    (h : MinConsume k p) : MinConsume k (pmap p f) := by
  intro l r v hp
  obtain ⟨u, hu, -⟩ := pmap_eq_some.mp hp
  exact h l r u hu

theorem mc_pmapRes {α β : Type} {k : Nat} {p : P α} {f : α → Option β}
    (h : MinConsume k p) : MinConsume k (pmapRes p f) := by
  intro l r v hp
  obtain ⟨u, hu, -⟩ := pmapRes_eq_some.mp hp
  exact h l r u hu

theorem mc_por {α : Type} {k : Nat} {p q : P α}
    (hp : MinConsume k p) (hq : MinConsume k q) : MinConsume k (por p q) := by
  intro l r v h
  rcases por_eq_some.mp h with h1 | ⟨-, h1⟩
  · exact hp l r v h1
  · exact hq l r v h1

theorem mc_pseq {α β : Type} {a b : Nat} {p : P α} {q : P β}
    (hp : MinConsume a p) (hq : MinConsume b q) : MinConsume (a + b) (pseq p q) := by
  intro l r v h
  obtain ⟨m, x, y, h1, h2, -⟩ := pseq_eq_some.mp h
  have i1 := hp l m x h1
  have i2 := hq m r y h2
  omega

theorem mc_ppre {α β : Type} {a b : Nat} {p : P α} {q : P β}
    (hp : MinConsume a p) (hq : MinConsume b q) : MinConsume (a + b) (ppre p q) :=
  mc_pmap (mc_pseq hp hq)

theorem mc_pterm {α β : Type} {a b : Nat} {p : P α} {q : P β}
    (hp : MinConsume a p) (hq : MinConsume b q) : MinConsume (a + b) (pterm p q) :=
  mc_pmap (mc_pseq hp hq)

theorem mc_pdelim {α β γ : Type} {a b c : Nat} {o : P α} {m : P β} {q : P γ}
    (ho : MinConsume a o) (hm : MinConsume b m) (hq : MinConsume c q) :
    MinConsume (a + b + c) (pdelim o m q) :=
  mc_pterm (mc_ppre ho hm) hq

theorem mc_psepPair {α β γ : Type} {a b c : Nat} {p : P α} {s : P β} {q : P γ}
    (hp : MinConsume a p) (hs : MinConsume b s) (hq : MinConsume c q) :
    MinConsume (a + b + c) (psepPair p s q) :=
  mc_pseq (mc_pterm hp hs) hq

theorem mc_popt {α : Type} {p : P α} (hp : MinConsume 0 p) :
    MinConsume 0 (popt p) := by
  intro l r v h
  rcases popt_eq_some.mp h with ⟨u, h1, -⟩ | ⟨-, rfl, -⟩
  · exact hp l r u h1
  · simp

theorem mc_ptag {s : List Char} : MinConsume s.length (ptag s) := by
  intro l r v h
  obtain ⟨rfl, -⟩ := ptag_eq_some.mp h
  simp [Nat.add_comm]

theorem mc_pchar {c : Char} : MinConsume 1 (pchar c) := by
  intro l r v h
  obtain ⟨rfl, -⟩ := pchar_eq_some.mp h
  simp

theorem mc_ptakeWhile1 {pr : Char → Bool} : MinConsume 1 (ptakeWhile1 pr) := by
  intro l r v h
  obtain ⟨hv, rfl, hne⟩ := ptakeWhile1_eq_some.mp h
  have hsplit := List.takeWhile_append_dropWhile pr l
  have hlen : (l.takeWhile pr).length + (l.dropWhile pr).length = l.length := by
    rw [← List.length_append, hsplit]
  have hpos : 1 ≤ (l.takeWhile pr).length := by
    cases hw : l.takeWhile pr with
    | nil => rw [hv, hw] at hne; exact absurd rfl hne
    | cons a t => simp
  omega

theorem mc_pandThen {α : Type} {k : Nat} {p : P (List Char)} {q : P α}
    (hp : MinConsume k p) : MinConsume k (pandThen p q) := by
  intro l r v h
  obtain ⟨t, m, h1, -⟩ := pandThen_eq_some.mp h
  exact hp l r t h1

theorem mc_precognize {α : Type} {k : Nat} {p : P α}
    (hp : MinConsume k p) : MinConsume k (precognize p) := by
  intro l r v h
  obtain ⟨u, hu, -⟩ := precognize_eq_some.mp h
  exact hp l r u hu

theorem mc_pcount_pchar {c : Char} {n : Nat} : MinConsume n (pcount (pchar c) n) := by
  intro l r v h
  rw [pcount_pchar_eq_some] at h
  subst h
  simp [Nat.add_comm]

theorem mc_hex {n : Nat} : MinConsume n (map.hex n) := by
  intro l r v h
  obtain ⟨u, hu, -⟩ := pmapRes_eq_some.mp h
  obtain ⟨rfl, h2, rfl⟩ := ptakeWhileMN_eq_some.mp hu
  have h3 : ((l.take n).takeWhile isHexD).length ≤ l.length := by
    calc ((l.take n).takeWhile isHexD).length ≤ (l.take n).length :=
          (List.takeWhile_prefix isHexD).length_le
    _ ≤ l.length := by simp
  simp only [List.length_drop]
  omega

theorem mc_padded {w : Nat} : MinConsume w (map.padded w) := by
  intro l r v h
  unfold map.padded at h
  by_cases hle : (l.takeWhile (fun c => c = ' ')).length ≤ w
  · rw [if_pos hle] at h
    obtain ⟨hw, rfl, -⟩ := ptake_eq_some.mp h
    have hsplit : (l.takeWhile (fun c => c = ' ')).length +
        (l.dropWhile (fun c => c = ' ')).length = l.length := by
      rw [← List.length_append, List.takeWhile_append_dropWhile]
    simp only [List.length_drop]
    omega
  · rw [if_neg hle] at h
    exact Option.noConfusion h

/-! ## Shape lemmas for the lexical primitives -/

theorem isSecChar_not_space {c : Char} (h : isSecChar c = true) : c ≠ ' ' := by
  rintro rfl
  exact absurd h (by decide)

theorem hex_shape {n : Nat} {l r : List Char} {v : Nat}
    (h : map.hex n l = some (r, v)) :
    ∃ t, l = t ++ r ∧ t.length = n ∧ (∀ c ∈ t, isHexD c = true) ∧
      v = hexVal t ∧ hexVal t < 2 ^ 32 := by
  obtain ⟨u, hu, hval⟩ := pmapRes_eq_some.mp h
  obtain ⟨rfl, h2, rfl⟩ := ptakeWhileMN_eq_some.mp hu
  have hlen1 : ((l.take n).takeWhile isHexD).length ≤ (l.take n).length :=
    (List.takeWhile_prefix isHexD).length_le
  have hlen2 : (l.take n).length ≤ n := by simp
  have hlen : ((l.take n).takeWhile isHexD).length = n := le_antisymm (hlen1.trans hlen2) h2
  have hlen3 : (l.take n).length = n := by omega
  have ht2 : (l.take n).takeWhile isHexD = l.take n :=
    (List.takeWhile_prefix isHexD).eq_of_length (by rw [hlen, hlen3])
  refine ⟨(l.take n).takeWhile isHexD, ?_, hlen, ?_, ?_, ?_⟩
  · rw [hlen, ht2]
    exact (List.take_append_drop n l).symm
  · exact fun c hc => List.mem_takeWhile_imp hc
  · unfold hexU32 at hval
    by_cases hb : hexVal ((l.take n).takeWhile isHexD) < 2 ^ 32
    · rw [if_pos hb] at hval
      exact (Option.some.inj hval).symm
    · rw [if_neg hb] at hval
      exact Option.noConfusion hval
  · unfold hexU32 at hval
    by_cases hb : hexVal ((l.take n).takeWhile isHexD) < 2 ^ 32
    · exact hb
    · rw [if_neg hb] at hval
      exact Option.noConfusion hval

theorem padded_shape {w : Nat} {l r t : List Char}
    (h : map.padded w l = some (r, t)) :
    ∃ sp, l = sp ++ t ++ r ∧ (∀ c ∈ sp, c = ' ') ∧ sp.length + t.length = w ∧
      (∀ c, t.head? = some c → c ≠ ' ') := by
  unfold map.padded at h
  by_cases hle : (l.takeWhile (fun c => c = ' ')).length ≤ w
  · rw [if_pos hle] at h
    obtain ⟨hw, rfl, rfl⟩ := ptake_eq_some.mp h
    refine ⟨l.takeWhile (fun c => c = ' '), ?_, ?_, ?_, ?_⟩
    · rw [List.append_assoc, List.take_append_drop, List.takeWhile_append_dropWhile]
    · intro c hc
      have h5 := List.mem_takeWhile_imp hc
      simpa using h5
    · rw [List.length_take]
      omega
    · intro c hc
      have hc2 := head?_take hc
      have hc3 := head?_dropWhile_false hc2
      simpa using hc3
  · rw [if_neg hle] at h
    exact Option.noConfusion h

theorem pmap_ptag_shape {β : Type} {s : List Char} {f : List Char → β}
    {l r : List Char} {v : β}
    (h : pmap (ptag s) f l = some (r, v)) : l = s ++ r := by
  obtain ⟨u, hu, -⟩ := pmap_eq_some.mp h
  exact (ptag_eq_some.mp hu).1

theorem popt_pchar_shape {c : Char} {l m : List Char} {o : Option Char}
    (h : popt (pchar c) l = some (m, o)) :
    ∃ d, l = d ++ m ∧ (d = [] ∨ d = [c]) := by
  rcases popt_eq_some.mp h with ⟨u, h1, -⟩ | ⟨-, rfl, -⟩
  · obtain ⟨rfl, -⟩ := pchar_eq_some.mp h1
    exact ⟨[c], rfl, Or.inr rfl⟩
  · exact ⟨[], rfl, Or.inl rfl⟩

theorem exfam_shape {core : P (List Char)}
    {l r : List Char} {v : map.SectionName}
    (hcore : ∀ l2 r2 v2, core l2 = some (r2, v2) →
      ∃ s, l2 = s ++ r2 ∧ s ≠ [] ∧ (∀ c ∈ s, c ≠ ' ') ∧ s.take 2 = ['e', 'x'])
    (h : pmap (pseq (pseq (pseq (popt (pchar '.')) (popt (pchar '_'))) core)
      (popt (pchar '_'))) (fun _ => v) l = some (r, v)) :
    ∃ t, l = t ++ r ∧ t ≠ [] ∧ (∀ c ∈ t, c ≠ ' ') ∧
      (t.head? = some '.' ∨ t.head? = some '_' ∨ t.take 2 = ['e', 'x']) := by
  obtain ⟨u, hu, -⟩ := pmap_eq_some.mp h
  obtain ⟨m3, a3, b3, h1, h2, -⟩ := pseq_eq_some.mp hu
  obtain ⟨m2, a2, b2, h3, h4, -⟩ := pseq_eq_some.mp h1
  obtain ⟨m1, a1, b1, h5, h6, -⟩ := pseq_eq_some.mp h3
  obtain ⟨d1, rfl, hd1⟩ := popt_pchar_shape h5
  obtain ⟨d2, hm1, hd2⟩ := popt_pchar_shape h6
  obtain ⟨sc, hm2, hsne, hsns, hstake⟩ := hcore m2 m3 b2 h4
  obtain ⟨d3, hm3, hd3⟩ := popt_pchar_shape h2
  have hslen : 2 ≤ sc.length := by
    have := congrArg List.length hstake
    simp at this
    omega
  refine ⟨d1 ++ d2 ++ sc ++ d3, ?_, ?_, ?_, ?_⟩
  · rw [hm1, hm2, hm3]
    simp [List.append_assoc]
  · intro hq
    rcases hd1 with rfl | rfl
    · rcases hd2 with rfl | rfl
      · simp only [List.nil_append] at hq
        exact hsne (List.append_eq_nil.mp hq).1
      · simp at hq
    · simp at hq
  · intro c hc
    simp only [List.mem_append] at hc
    rcases hc with ((hc | hc) | hc) | hc
    · rcases hd1 with rfl | rfl
      · cases hc
      · simp only [List.mem_singleton] at hc
        subst hc
        decide
    · rcases hd2 with rfl | rfl
      · cases hc
      · simp only [List.mem_singleton] at hc
        subst hc
        decide
    · exact hsns c hc
    · rcases hd3 with rfl | rfl
      · cases hc
      · simp only [List.mem_singleton] at hc
        subst hc
        decide
  · rcases hd1 with rfl | rfl
    · rcases hd2 with rfl | rfl
      · right; right
        simp only [List.nil_append]
        rw [List.take_append_of_le_length hslen] at *
        exact hstake
      · right; left
        rfl
    · left
      rfl

theorem extab_shape {l r : List Char} {v : map.SectionName}
    (h : map.extab l = some (r, v)) :
    ∃ t, l = t ++ r ∧ t ≠ [] ∧ (∀ c ∈ t, c ≠ ' ') ∧
      (t.head? = some '.' ∨ t.head? = some '_' ∨ t.take 2 = ['e', 'x']) := by
  unfold map.extab at h
  have hv : v = map.SectionName.ExTab := by
    obtain ⟨u, -, hv⟩ := pmap_eq_some.mp h
    exact hv
  subst hv
  refine exfam_shape ?_ h
  intro l2 r2 v2 hc
  obtain ⟨rfl, -⟩ := ptag_eq_some.mp hc
  exact ⟨"extab".toList, rfl, by decide, by decide, by decide⟩

theorem extabindex_shape {l r : List Char} {v : map.SectionName}
    (h : map.extabindex l = some (r, v)) :
    ∃ t, l = t ++ r ∧ t ≠ [] ∧ (∀ c ∈ t, c ≠ ' ') ∧
      (t.head? = some '.' ∨ t.head? = some '_' ∨ t.take 2 = ['e', 'x']) := by
  unfold map.extabindex at h
  have hv : v = map.SectionName.ExTabIndex := by
    obtain ⟨u, -, hv⟩ := pmap_eq_some.mp h
    exact hv
  subst hv
  refine exfam_shape ?_ h
  intro l2 r2 v2 hc
  rcases por_eq_some.mp hc with h2 | ⟨-, h2⟩
  · obtain ⟨rfl, -⟩ := ptag_eq_some.mp h2
    exact ⟨"extabindex".toList, rfl, by decide, by decide, by decide⟩
  · obtain ⟨rfl, -⟩ := ptag_eq_some.mp h2
    exact ⟨"exidx".toList, rfl, by decide, by decide, by decide⟩

theorem section_name_shape {l r : List Char} {v : map.SectionName}
    (h : map.section_name l = some (r, v)) :
    ∃ t, l = t ++ r ∧ t ≠ [] ∧ (∀ c ∈ t, c ≠ ' ') ∧
      (t.head? = some '.' ∨ t.head? = some '_' ∨ t.take 2 = ['e', 'x']) := by
  unfold map.section_name at h
  rcases por_eq_some.mp h with h1 | ⟨-, h1⟩
  · exact extabindex_shape h1
  rcases por_eq_some.mp h1 with h2 | ⟨-, h2⟩
  · exact extab_shape h2
  rcases por_eq_some.mp h2 with h3 | ⟨-, h3⟩
  · -- dot-prefixed fixed tags
    obtain ⟨m, a, h4, h5⟩ := ppre_eq_some.mp h3
    obtain ⟨rfl, -⟩ := pchar_eq_some.mp h4
    have htag : ∃ s2 : List Char, m = s2 ++ r ∧ s2 ≠ [] ∧ ∀ c ∈ s2, c ≠ ' ' := by
      rcases por_eq_some.mp h5 with h6 | ⟨-, h6⟩
      · exact ⟨_, pmap_ptag_shape h6, by decide, by decide⟩
      rcases por_eq_some.mp h6 with h7 | ⟨-, h7⟩
      · exact ⟨_, pmap_ptag_shape h7, by decide, by decide⟩
      rcases por_eq_some.mp h7 with h8 | ⟨-, h8⟩
      · exact ⟨_, pmap_ptag_shape h8, by decide, by decide⟩
      rcases por_eq_some.mp h8 with h9 | ⟨-, h9⟩
      · exact ⟨_, pmap_ptag_shape h9, by decide, by decide⟩
      rcases por_eq_some.mp h9 with h10 | ⟨-, h10⟩
      · exact ⟨_, pmap_ptag_shape h10, by decide, by decide⟩
      rcases por_eq_some.mp h10 with h11 | ⟨-, h11⟩
      · exact ⟨_, pmap_ptag_shape h11, by decide, by decide⟩
      rcases por_eq_some.mp h11 with h12 | ⟨-, h12⟩
      · exact ⟨_, pmap_ptag_shape h12, by decide, by decide⟩
      rcases por_eq_some.mp h12 with h13 | ⟨-, h13⟩
      · exact ⟨_, pmap_ptag_shape h13, by decide, by decide⟩
      rcases por_eq_some.mp h13 with h14 | ⟨-, h14⟩
      · exact ⟨_, pmap_ptag_shape h14, by decide, by decide⟩
      rcases por_eq_some.mp h14 with h15 | ⟨-, h15⟩
      · exact ⟨_, pmap_ptag_shape h15, by decide, by decide⟩
      · exact ⟨_, pmap_ptag_shape h15, by decide, by decide⟩
    obtain ⟨s2, rfl, hne, hns⟩ := htag
    refine ⟨'.' :: s2, rfl, by simp, ?_, Or.inl rfl⟩
    intro c hc
    rcases List.mem_cons.mp hc with rfl | hc
    · decide
    · exact hns c hc
  · -- Unknown fallback
    obtain ⟨u, hu, -⟩ := pmap_eq_some.mp h3
    obtain ⟨m, a, h4, h5⟩ := ppre_eq_some.mp hu
    obtain ⟨rfl, -⟩ := pchar_eq_some.mp h4
    obtain ⟨rfl, rfl, hne⟩ := ptakeWhile1_eq_some.mp h5
    refine ⟨'.' :: m.takeWhile isSecChar, ?_, by simp, ?_, Or.inl rfl⟩
    · rw [List.cons_append, List.takeWhile_append_dropWhile]
    · intro c hc
      rcases List.mem_cons.mp hc with rfl | hc
      · decide
      · exact isSecChar_not_space (List.mem_takeWhile_imp hc)

theorem c_name_shape {l r t : List Char} (h : map.c_name l = some (r, t)) :
    l = t ++ r ∧ (∃ c t2, t = c :: t2 ∧ (c.isAlpha = true ∨ c = '_')) ∧
      (∀ c ∈ t, c.isAlphanum = true ∨ c = '_') := by
  unfold map.c_name at h
  obtain ⟨v, hv, ht⟩ := precognize_eq_some.mp h
  obtain ⟨m, a, b, h1, h2, -⟩ := pseq_eq_some.mp hv
  have hfirst : ∃ t1 c t2, l = t1 ++ m ∧ t1 = c :: t2 ∧ (c.isAlpha = true ∨ c = '_') ∧
      (∀ x ∈ t1, x.isAlphanum = true ∨ x = '_') := by
    rcases por_eq_some.mp h1 with h3 | ⟨-, h3⟩
    · obtain ⟨ha, rfl, hne⟩ := ptakeWhile1_eq_some.mp h3
      cases hw : l.takeWhile Char.isAlpha with
      | nil => rw [hw] at ha; exact absurd ha hne
      | cons c t2 =>
        refine ⟨c :: t2, c, t2, ?_, rfl, ?_, ?_⟩
        · rw [← hw, List.takeWhile_append_dropWhile]
        · exact Or.inl (List.mem_takeWhile_imp (hw ▸ List.mem_cons_self c t2))
        · intro x hx
          have : x.isAlpha = true := List.mem_takeWhile_imp (hw ▸ hx)
          exact Or.inl (by simp [Char.isAlphanum, this])
    · obtain ⟨rfl, -⟩ := ptag_eq_some.mp h3
      exact ⟨"_".toList, '_', [], rfl, rfl, Or.inr rfl, by decide⟩
  have hloop : ∃ t2, m = t2 ++ r ∧ ∀ c ∈ t2, c.isAlphanum = true ∨ c = '_' := by
    have co : ConsumesOnly (fun c => c.isAlphanum = true ∨ c = '_')
        (many0Count (por alphanumeric1 (ptag "_".toList))) := by
      apply co_many0Count
      apply co_por
      · exact co_ptakeWhile1 (fun c hc => Or.inl hc)
      · refine co_ptag ?_
        intro c hc
        simp only [String.toList] at hc
        right
        simpa using hc
    exact co m r b h2
  obtain ⟨t1, c, t2, rfl, rfl, hhd, hcls1⟩ := hfirst
  obtain ⟨t3, rfl, hcls2⟩ := hloop
  have harith : ((c :: t2) ++ (t3 ++ r)).length - r.length = (c :: t2).length + t3.length := by
    simp only [List.length_append, List.length_cons]
    omega
  have ht4 : t = (c :: t2) ++ t3 := by
    rw [ht, harith]
    rw [← List.append_assoc]
    have := List.take_left ((c :: t2) ++ t3) r
    rw [List.length_append] at this
    exact this
  subst ht4
  refine ⟨by rw [List.append_assoc], ⟨c, t2 ++ t3, by simp, hhd⟩, ?_⟩
  intro x hx
  rcases List.mem_append.mp hx with hx | hx
  · exact hcls1 x hx
  · exact hcls2 x hx

/-! ## Shape lemmas for the line-level parsers -/

theorem title_shape {l r w : List Char} (h : tree.title l = some (r, w)) :
    l = "Link map of ".toList ++ (w ++ r) ∧ w ≠ [] ∧
      ∀ c ∈ w, (c.isAlphanum = true ∨ c = '_') := by
  unfold tree.title at h
  obtain ⟨m, a, h1, h2⟩ := ppre_eq_some.mp h
  obtain ⟨rfl, -⟩ := ptag_eq_some.mp h1
  obtain ⟨h3, ⟨c, t2, rfl, -⟩, hcls⟩ := c_name_shape h2
  exact ⟨by rw [h3], by simp, hcls⟩

theorem node_shape {l r : List Char} {nd : tree.Node} (h : tree.node l = some (r, nd)) :
    ∃ ds rest, l.dropWhile (fun c => c = ' ') = ds ++ ']' :: ' ' :: rest ∧ ds ≠ [] ∧
      (∀ c ∈ ds, c.isDigit = true) ∧ nd.depth = decVal ds := by
  unfold tree.node at h
  obtain ⟨u, hu, hval⟩ := pmap_eq_some.mp h
  obtain ⟨m, d, bb, h1, h2, hub⟩ := pseq_eq_some.mp hu
  unfold tree.depth at h1
  obtain ⟨u2, hu2, hpu⟩ := pmapRes_eq_some.mp h1
  obtain ⟨m1, a1, m2, b2, ho, hm, hc⟩ := pdelim_eq_some.mp hu2
  have ho2 : l.dropWhile (fun c => c = ' ') = m1 ∧ l.takeWhile (fun c => c = ' ') = a1 :=
    someInj2 ho
  obtain ⟨rfl, rfl, hne⟩ := ptakeWhile1_eq_some.mp hm
  obtain ⟨hm2, -⟩ := ptag_eq_some.mp hc
  refine ⟨m1.takeWhile Char.isDigit, m, ?_, hne, fun c hc2 => List.mem_takeWhile_imp hc2, ?_⟩
  · rw [ho2.1]
    conv_lhs => rw [← List.takeWhile_append_dropWhile Char.isDigit m1]
    rw [hm2]
    rfl
  · have hdepth : nd.depth = d := by rw [hval, hub]
    unfold parseU32 at hpu
    by_cases hb : decVal (m1.takeWhile Char.isDigit) < 2 ^ 32
    · rw [if_pos hb] at hpu
      rw [hdepth, ← Option.some.inj hpu]
    · rw [if_neg hb] at hpu
      exact Option.noConfusion hpu

theorem section_title_shape {l r : List Char} {v : map.SectionName}
    (h : section_table.title l = some (r, v)) :
    ∃ nm, l = nm ++ (" section layout".toList ++ r) ∧ nm ≠ [] ∧ (∀ c ∈ nm, c ≠ ' ') ∧
      (nm.head? = some '.' ∨ nm.head? = some '_' ∨ nm.take 2 = ['e', 'x']) := by
  unfold section_table.title at h
  obtain ⟨m, bb, h1, h2⟩ := pterm_eq_some.mp h
  obtain ⟨nm, rfl, hne, hns, hhd⟩ := section_name_shape h1
  obtain ⟨rfl, -⟩ := ptag_eq_some.mp h2
  exact ⟨nm, rfl, hne, hns, hhd⟩

/-! ## Minimum-consumption bounds for the section-symbol row -/

theorem mc_identifier : MinConsume 1 map.identifier := by
  unfold map.identifier
  exact mc_pandThen mc_ptakeWhile1

theorem co_total_filename : ConsumesOnly (fun _ => True) windows.filename := by
  unfold windows.filename
  apply co_precognize
  apply co_pseq
  · apply co_pmap
    apply co_pseq
    · exact co_ptakeWhile1 (fun c hc => trivial)
    · exact co_pchar trivial
  · exact co_ptakeWhile1 (fun c hc => trivial)

theorem mc_filename : MinConsume 3 windows.filename := by
  unfold windows.filename
  apply mc_precognize
  exact mc_weaken2 (mc_psepPair mc_ptakeWhile1 mc_pchar mc_ptakeWhile1) (by omega)

theorem mc_origin : MinConsume 4 map.origin := by
  unfold map.origin
  apply mc_pmap
  have halt : MinConsume 0 (por
      (pmap (pseq windows.filename (pmap (popt (ptag " (asm)".toList)) Option.isSome))
        (fun x => (some x.1, x.2)))
      (pmap (ptag "".toList)
        (fun _ => ((none : Option (List Char)), false)))) := by
    apply mc_por
    · apply mc_pmap
      exact mc_weaken2
        (mc_pseq mc_filename (mc_pmap (mc_popt (mc_weaken2 mc_ptag (by decide)))))
        (by omega)
    · exact mc_pmap (mc_weaken2 mc_ptag (by decide))
  exact mc_weaken2 (mc_psepPair mc_filename mc_pchar halt) (by omega)

theorem mc_align : MinConsume 2 section_table.align := by
  unfold section_table.align
  exact mc_pmapRes (mc_pandThen mc_padded)

theorem mc_parent : MinConsume 20 section_table.parent := by
  unfold section_table.parent
  apply mc_pmap
  exact mc_weaken2 (mc_pseq (mc_pterm mc_hex mc_pchar)
    (mc_pseq (mc_pterm mc_hex mc_pchar)
    (mc_pseq (mc_popt (mc_weaken2 (mc_pterm mc_hex mc_pchar) (by omega)))
    (mc_pseq (mc_pterm mc_align mc_pchar) mc_identifier)))) (by omega)

theorem mc_parent_identifier : MinConsume 12 section_table.parent_identifier := by
  unfold section_table.parent_identifier
  exact mc_weaken2 (mc_pdelim mc_ptag mc_identifier mc_pchar) (by decide)

theorem mc_child : MinConsume 30 section_table.child := by
  unfold section_table.child
  apply mc_pmap
  exact mc_weaken2 (mc_pseq (mc_pterm mc_pcount_pchar mc_pchar)
    (mc_pseq (mc_pterm mc_hex mc_pchar)
    (mc_pseq (mc_popt (mc_weaken2 (mc_pterm mc_hex mc_pchar) (by omega)))
    (mc_pseq (mc_pterm mc_identifier mc_pchar) mc_parent_identifier)))) (by omega)

theorem mc_symbol : MinConsume 36 section_table.symbol := by
  unfold section_table.symbol
  apply mc_pmap
  have htab : MinConsume 1 (por (ptag " \t".toList) (ptag "\t".toList)) := by
    apply mc_por
    · exact mc_weaken2 mc_ptag (by decide)
    · exact mc_weaken2 mc_ptag (by decide)
  exact mc_weaken2 (mc_pseq
    (mc_pdelim mc_pcount_pchar mc_hex mc_pchar)
    (mc_pseq (mc_pterm (mc_por mc_parent (mc_weaken2 mc_child (by omega))) htab)
      mc_origin)) (by omega)

theorem symbol_shape {l r : List Char} {sy : section_table.Symbol}
    (h : section_table.symbol l = some (r, sy)) :
    (∃ h8 mid, l = ' ' :: ' ' :: (h8 ++ (' ' :: mid)) ∧ h8.length = 8 ∧
      (∀ c ∈ h8, isHexD c = true)) ∧ r.length + 36 ≤ l.length := by
  refine ⟨?_, mc_symbol l r sy h⟩
  unfold section_table.symbol at h
  obtain ⟨u, hu, -⟩ := pmap_eq_some.mp h
  obtain ⟨m, a, bb, h1, h2, -⟩ := pseq_eq_some.mp hu
  obtain ⟨m1, a1, m2, b2, hcnt, hhex, hsp⟩ := pdelim_eq_some.mp h1
  rw [pcount_pchar_eq_some] at hcnt
  obtain ⟨h8, rfl, hlen, hhx, -, -⟩ := hex_shape hhex
  obtain ⟨rfl, -⟩ := pchar_eq_some.mp hsp
  subst hcnt
  exact ⟨h8, m, by rfl, hlen, hhx⟩

theorem fld_head_disj {fld t junk : List Char} (hfld : fld = t ++ junk) (htne : t ≠ [])
    (hthd : t.head? = some '.' ∨ t.head? = some '_' ∨ t.take 2 = ['e', 'x']) :
    fld.head? = some '.' ∨ fld.head? = some '_' ∨ fld.take 2 = ['e', 'x'] := by
  rcases hthd with h | h | h
  · left; rw [head?_eq_of_append_eq hfld htne]; exact h
  · right; left; rw [head?_eq_of_append_eq hfld htne]; exact h
  · right; right
    have h2le : 2 ≤ t.length := by
      have := congrArg List.length h
      simp at this
      omega
    rw [hfld, List.take_append_of_le_length h2le]
    exact h

theorem entry_shape {l r : List Char} {e : memory_table.Entry}
    (h : memory_table.entry l = some (r, e)) :
    ∃ sp fld a b c,
      l = (sp ++ fld) ++ (' ' :: ' ' :: (a ++ (' ' :: (b ++ (' ' :: (c ++ r)))))) ∧
      (∀ x ∈ sp, x = ' ') ∧ sp.length + fld.length = 17 ∧ fld ≠ [] ∧
      (fld.head? = some '.' ∨ fld.head? = some '_' ∨ fld.take 2 = ['e', 'x']) ∧
      a.length = 8 ∧ b.length = 8 ∧ c.length = 8 := by
  unfold memory_table.entry at h
  obtain ⟨u, hu, -⟩ := pmap_eq_some.mp h
  obtain ⟨m, a0, b0, h1, h2, -⟩ := pseq_eq_some.mp hu
  obtain ⟨m1, b1, h3, h4⟩ := pterm_eq_some.mp h1
  obtain ⟨fld, m2, h5, h6⟩ := pandThen_eq_some.mp h3
  obtain ⟨sp, hl, hsp, hlen17, -⟩ := padded_shape h5
  obtain ⟨t, hfld, htne, -, hthd⟩ := section_name_shape h6
  rw [pcount_pchar_eq_some] at h4
  obtain ⟨m4, vb, vr2, hB, hCD, -⟩ := pseq_eq_some.mp h2
  obtain ⟨m5, b5, hBh, hBc⟩ := pterm_eq_some.mp hB
  obtain ⟨aa, hma, halen, -, -, -⟩ := hex_shape hBh
  obtain ⟨hm5, -⟩ := pchar_eq_some.mp hBc
  obtain ⟨m6, vc, vd, hC, hD, -⟩ := pseq_eq_some.mp hCD
  obtain ⟨m7, b7, hCh, hCc⟩ := pterm_eq_some.mp hC
  obtain ⟨bb, hmb, hblen, -, -, -⟩ := hex_shape hCh
  obtain ⟨hm7, -⟩ := pchar_eq_some.mp hCc
  obtain ⟨cc, hmc, hclen, -, -, -⟩ := hex_shape hD
  refine ⟨sp, fld, aa, bb, cc, ?_, hsp, hlen17, ?_,
    fld_head_disj hfld htne hthd, halen, hblen, hclen⟩
  · rw [hl, h4, hma, hm5, hmb, hm7, hmc]
    simp [List.append_assoc, List.replicate_succ]
  · intro hq
    rw [hfld] at hq
    exact htne (List.append_eq_nil.mp hq).1

theorem debug_entry_shape {l r : List Char} {e : memory_table.Entry}
    (h : memory_table.debug_entry l = some (r, e)) :
    ∃ sp fld a b,
      l = (sp ++ fld) ++ (List.replicate 11 ' ' ++ (a ++ (' ' :: (b ++ r)))) ∧
      (∀ x ∈ sp, x = ' ') ∧ sp.length + fld.length = 17 ∧
      fld.head? = some '.' ∧ a.length = 6 ∧ b.length = 8 := by
  unfold memory_table.debug_entry at h
  obtain ⟨u, hu, -⟩ := pmap_eq_some.mp h
  obtain ⟨m, a0, b0, h1, h2, -⟩ := pseq_eq_some.mp hu
  obtain ⟨m1, b1, h3, h4⟩ := pterm_eq_some.mp h1
  obtain ⟨fld, m2, h5, h6⟩ := pandThen_eq_some.mp h3
  obtain ⟨sp, hl, hsp, hlen17, -⟩ := padded_shape h5
  have hfldhd : ∃ m9, fld = '.' :: m9 := by
    unfold memory_table.debug_section_name at h6
    obtain ⟨m9, a9, h7, -⟩ := ppre_eq_some.mp h6
    obtain ⟨h8, -⟩ := pchar_eq_some.mp h7
    exact ⟨m9, h8⟩
  obtain ⟨m9, hfld⟩ := hfldhd
  rw [pcount_pchar_eq_some] at h4
  obtain ⟨m4, vb, vr2, hB, hD, -⟩ := pseq_eq_some.mp h2
  obtain ⟨m5, b5, hBh, hBc⟩ := pterm_eq_some.mp hB
  obtain ⟨aa, hma, halen, -, -, -⟩ := hex_shape hBh
  obtain ⟨hm5, -⟩ := pchar_eq_some.mp hBc
  obtain ⟨bb, hmb, hblen, -, -, -⟩ := hex_shape hD
  refine ⟨sp, fld, aa, bb, ?_, hsp, hlen17, by rw [hfld]; rfl, halen, hblen⟩
  rw [hl, h4, hma, hm5, hmb]

theorem linker_entry_shape {l r : List Char} {e : linker_table.Entry}
    (h : linker_table.entry l = some (r, e)) :
    ∃ sp fld h8,
      l = (sp ++ fld) ++ (' ' :: (h8 ++ r)) ∧ (∀ x ∈ sp, x = ' ') ∧
      sp.length + fld.length = 25 ∧
      (∃ c, fld.head? = some c ∧ (c.isAlpha = true ∨ c = '_')) ∧ h8.length = 8 := by
  unfold linker_table.entry at h
  obtain ⟨u, hu, -⟩ := pmap_eq_some.mp h
  obtain ⟨m, a0, b0, h1, h2, -⟩ := pseq_eq_some.mp hu
  obtain ⟨m1, b1, h3, h4⟩ := pterm_eq_some.mp h1
  obtain ⟨fld, m2, h5, h6⟩ := pandThen_eq_some.mp h3
  obtain ⟨sp, hl, hsp, hlen25, -⟩ := padded_shape h5
  obtain ⟨hfld, ⟨c, t2, hct, hcok⟩, -⟩ := c_name_shape h6
  obtain ⟨hm1, -⟩ := pchar_eq_some.mp h4
  obtain ⟨h8, hmh, h8len, -, -, -⟩ := hex_shape h2
  refine ⟨sp, fld, h8, ?_, hsp, hlen25, ?_, h8len⟩
  · rw [hl, hm1, hmh]
  · refine ⟨c, ?_, hcok⟩
    rw [head?_eq_of_append_eq hfld (by rw [hct]; simp), hct]
    rfl

/-! ## Full-match characterization of the fixed-text alternatives -/

theorem full_pac {α β : Type} {p : P α} {f : α → β} {l : List Char}
    (h : (pallConsuming (pmap p f) l).isSome = true) : ∃ v, p l = some ([], v) := by
  obtain ⟨⟨r, v⟩, hx⟩ := Option.isSome_iff_exists.mp h
  obtain ⟨rfl, h1⟩ := pallConsuming_eq_some.mp hx
  obtain ⟨u, h2, -⟩ := pmap_eq_some.mp h1
  exact ⟨u, h2⟩

theorem fullAlt0_eq {l : List Char} (h : (map.lineAlt 0 l).isSome = true) :
    l = [] := by
  obtain ⟨⟨r, v⟩, hx⟩ := Option.isSome_iff_exists.mp h
  have hx2 : map.alt0 l = some (r, v) := hx
  obtain ⟨u, h2, -⟩ := pmap_eq_some.mp hx2
  exact (peof_eq_some.mp h2).1

theorem fullAlt4_eq {l : List Char} (h : (map.lineAlt 4 l).isSome = true) :
    l = "  Starting        Virtual".toList := by
  obtain ⟨v, h2⟩ := full_pac h
  unfold section_table.columns0 at h2
  obtain ⟨u2, h3, -⟩ := pmap_eq_some.mp h2
  obtain ⟨m1, a1, b1, h4, h5, -⟩ := pseq_eq_some.mp h3
  rw [pcount_pchar_eq_some] at h4
  obtain ⟨m2, a2, b2, h6, h7, -⟩ := pseq_eq_some.mp h5
  obtain ⟨rfl, -⟩ := ptag_eq_some.mp h6
  obtain ⟨m3, a3, b3, h8, h9, -⟩ := pseq_eq_some.mp h7
  rw [pcount_pchar_eq_some] at h8
  obtain ⟨h10, -⟩ := ptag_eq_some.mp h9
  subst h8
  subst h10
  subst h4
  decide

theorem fullAlt5_eq {l : List Char} (h : (map.lineAlt 5 l).isSome = true) :
    l = "  address  Size   address".toList := by
  obtain ⟨v, h2⟩ := full_pac h
  unfold section_table.columns1 at h2
  obtain ⟨u2, h3, -⟩ := pmap_eq_some.mp h2
  obtain ⟨m1, a1, b1, h4, h5, -⟩ := pseq_eq_some.mp h3
  rw [pcount_pchar_eq_some] at h4
  obtain ⟨m2, a2, b2, h6, h7, -⟩ := pseq_eq_some.mp h5
  obtain ⟨rfl, -⟩ := ptag_eq_some.mp h6
  obtain ⟨m3, a3, b3, h8, h9, -⟩ := pseq_eq_some.mp h7
  rw [pcount_pchar_eq_some] at h8
  obtain ⟨m4, a4, b4, h10, h11, -⟩ := pseq_eq_some.mp h9
  obtain ⟨rfl, -⟩ := ptag_eq_some.mp h10
  obtain ⟨m5, a5, b5, h12, h13, -⟩ := pseq_eq_some.mp h11
  rw [pcount_pchar_eq_some] at h12
  obtain ⟨h14, -⟩ := ptag_eq_some.mp h13
  subst h12
  subst h14
  subst h8
  subst h4
  decide

theorem fullAlt6_eq {l : List Char} (h : (map.lineAlt 6 l).isSome = true) :
    l = "  -----------------------".toList := by
  obtain ⟨v, h2⟩ := full_pac h
  unfold section_table.separator at h2
  obtain ⟨u2, h3, -⟩ := pmap_eq_some.mp h2
  obtain ⟨m1, a1, b1, h4, h5, -⟩ := pseq_eq_some.mp h3
  rw [pcount_pchar_eq_some] at h4
  rw [pcount_pchar_eq_some] at h5
  subst h5
  subst h4
  decide

theorem fullAlt8_eq {l : List Char} (h : (map.lineAlt 8 l).isSome = true) :
    l = "Memory map:".toList := by
  obtain ⟨v, h2⟩ := full_pac h
  unfold memory_table.title at h2
  obtain ⟨u, h3, -⟩ := precognize_eq_some.mp h2
  obtain ⟨h4, -⟩ := ptag_eq_some.mp h3
  subst h4
  decide

theorem fullAlt9_eq {l : List Char} (h : (map.lineAlt 9 l).isSome = true) :
    l = "                   Starting Size     File".toList := by
  obtain ⟨v, h2⟩ := full_pac h
  unfold memory_table.columns0 at h2
  obtain ⟨u2, h3, -⟩ := pmap_eq_some.mp h2
  obtain ⟨m1, a1, b1, h4, h5, -⟩ := pseq_eq_some.mp h3
  rw [pcount_pchar_eq_some] at h4
  obtain ⟨m2, a2, b2, h6, h7, -⟩ := pseq_eq_some.mp h5
  obtain ⟨rfl, -⟩ := ptag_eq_some.mp h6
  obtain ⟨m3, a3, b3, h8, h9, -⟩ := pseq_eq_some.mp h7
  obtain ⟨h8c, -⟩ := pchar_eq_some.mp h8
  obtain ⟨m4, a4, b4, h10, h11, -⟩ := pseq_eq_some.mp h9
  obtain ⟨rfl, -⟩ := ptag_eq_some.mp h10
  obtain ⟨m5, a5, b5, h12, h13, -⟩ := pseq_eq_some.mp h11
  rw [pcount_pchar_eq_some] at h12
  obtain ⟨h14, -⟩ := ptag_eq_some.mp h13
  subst h12
  subst h14
  subst h8c
  subst h4
  decide

theorem fullAlt10_eq {l : List Char} (h : (map.lineAlt 10 l).isSome = true) :
    l = "                   address           Offset".toList := by
  obtain ⟨v, h2⟩ := full_pac h
  unfold memory_table.columns1 at h2
  obtain ⟨u2, h3, -⟩ := pmap_eq_some.mp h2
  obtain ⟨m1, a1, b1, h4, h5, -⟩ := pseq_eq_some.mp h3
  rw [pcount_pchar_eq_some] at h4
  obtain ⟨m2, a2, b2, h6, h7, -⟩ := pseq_eq_some.mp h5
  obtain ⟨rfl, -⟩ := ptag_eq_some.mp h6
  obtain ⟨m3, a3, b3, h8, h9, -⟩ := pseq_eq_some.mp h7
  rw [pcount_pchar_eq_some] at h8
  obtain ⟨h10, -⟩ := ptag_eq_some.mp h9
  subst h8
  subst h10
  subst h4
  decide

theorem fullAlt13_eq {l : List Char} (h : (map.lineAlt 13 l).isSome = true) :
    l = "Linker generated symbols:".toList := by
  obtain ⟨v, h2⟩ := full_pac h
  unfold linker_table.title at h2
  obtain ⟨u, h3, -⟩ := pmap_eq_some.mp h2
  obtain ⟨h4, -⟩ := ptag_eq_some.mp h3
  subst h4
  decide

/-! ## Helpers for the pairwise-disjointness proofs -/

theorem hex_ne_space {c : Char} (h : isHexD c = true) : c ≠ ' ' := by
  rintro rfl
  exact absurd h (by decide)

theorem head?_mem {l : List Char} {c : Char} (h : l.head? = some c) : c ∈ l := by
  cases l with
  | nil => cases h
  | cons x t =>
    obtain rfl : x = c := by simpa using h
    simp

theorem take_two_head {l : List Char} {a b : Char} (h : l.take 2 = [a, b]) :
    l.head? = some a := by
  cases l with
  | nil => simp at h
  | cons x t =>
    cases t with
    | nil => simp at h
    | cons y t2 =>
      simp only [List.take_succ_cons, List.take_zero] at h
      have h2 : x = a ∧ [y] = [b] := List.cons.injEq .. ▸ h
      rw [h2.1]
      rfl

theorem take_two_eq {l : List Char} {a b : Char} (h : l.take 2 = [a, b]) :
    ∃ t, l = a :: b :: t := by
  cases l with
  | nil => simp at h
  | cons x t =>
    cases t with
    | nil => simp at h
    | cons y t2 =>
      simp only [List.take_succ_cons, List.take_zero] at h
      have h2 : x = a ∧ [y] = [b] := List.cons.injEq .. ▸ h
      have h3 : y = b ∧ ([] : List Char) = [] := List.cons.injEq .. ▸ h2.2
      rw [h2.1, h3.1]
      exact ⟨t2, rfl⟩

theorem exists_cons_cons_of_two_le {l : List Char} (h : 2 ≤ l.length) :
    ∃ c0 c1 t, l = c0 :: c1 :: t := by
  cases l with
  | nil => simp at h
  | cons a t1 =>
    cases t1 with
    | nil => simp at h
    | cons b t2 => exact ⟨a, b, t2, rfl⟩

theorem drop_append_ge {a b : List Char} {n : Nat} (h : a.length ≤ n) :
    (a ++ b).drop n = b.drop (n - a.length) := by
  induction a generalizing n with
  | nil => simp
  | cons x t ih =>
    cases n with
    | zero => simp at h
    | succ k =>
      simp only [List.cons_append, List.drop_succ_cons, List.length_cons]
      rw [ih (by simpa using h)]
      congr 1
      omega

theorem heads_eq {a x b y : List Char} (h : a ++ x = b ++ y) {ca cb : Char}
    (ha : a.head? = some ca) (hb : b.head? = some cb) : ca = cb := by
  have h2 := congrArg List.head? h
  rw [head?_append_left ha, head?_append_left hb] at h2
  exact Option.some.inj h2

theorem head?_of_ne_nil {l : List Char} (h : l ≠ []) : ∃ c, l.head? = some c := by
  cases l with
  | nil => exact absurd rfl h
  | cons x t => exact ⟨x, rfl⟩

theorem dropWhile_space_decomp {sp tail : List Char} (hsp : ∀ c ∈ sp, c = ' ')
    {c : Char} (hh : tail.head? = some c) (hc : c ≠ ' ') :
    (sp ++ tail).dropWhile (fun x => x = ' ') = tail := by
  rw [dropWhile_append_all (by intro x hx; simp [hsp x hx]) tail]
  exact dropWhile_head_false hh (by simp [hc])

theorem node_first {l r : List Char} {nd : tree.Node} (h : tree.node l = some (r, nd)) :
    ∃ ds rest, l.dropWhile (fun x => x = ' ') = ds ++ ']' :: ' ' :: rest ∧
      (∃ d ds2, ds = d :: ds2 ∧ d.isDigit = true) ∧ (∀ c ∈ ds, c.isDigit = true) := by
  obtain ⟨ds, rest, heq, hne, hdig, -⟩ := node_shape h
  cases ds with
  | nil => exact absurd rfl hne
  | cons d ds2 =>
    exact ⟨d :: ds2, rest, heq, ⟨d, ds2, rfl, hdig d (by simp)⟩, hdig⟩

theorem run_clash : ∀ (h8 : List Char), (∀ c ∈ h8, isHexD c = true) →
    ∀ (ds t1 t2 : List Char), (∀ c ∈ ds, c.isDigit = true) →
    ds ++ ']' :: t1 = h8 ++ ' ' :: t2 → False := by
  intro h8
  induction h8 with
  | nil =>
    intro hhx ds t1 t2 hds heq
    cases ds with
    | nil =>
      simp only [List.nil_append] at heq
      have h2 : ']' = ' ' ∧ t1 = t2 := List.cons.injEq .. ▸ heq
      exact absurd h2.1 (by decide)
    | cons d ds2 =>
      simp only [List.cons_append, List.nil_append] at heq
      have h2 : d = ' ' ∧ ds2 ++ ']' :: t1 = t2 := List.cons.injEq .. ▸ heq
      have h3 := hds d (by simp)
      rw [h2.1] at h3
      exact absurd h3 (by decide)
  | cons a h8t ih =>
    intro hhx ds t1 t2 hds heq
    cases ds with
    | nil =>
      simp only [List.nil_append, List.cons_append] at heq
      have h2 : ']' = a ∧ t1 = h8t ++ ' ' :: t2 := List.cons.injEq .. ▸ heq
      have h3 := hhx a (by simp)
      rw [← h2.1] at h3
      exact absurd h3 (by decide)
    | cons d ds2 =>
      simp only [List.cons_append] at heq
      have h2 : d = a ∧ ds2 ++ ']' :: t1 = h8t ++ ' ' :: t2 := List.cons.injEq .. ▸ heq
      exact ih (fun c hc => hhx c (by simp [hc])) ds2 t1 t2
        (fun c hc => hds c (by simp [hc])) h2.2

theorem fld_head_char {fld : List Char}
    (h : fld.head? = some '.' ∨ fld.head? = some '_' ∨ fld.take 2 = ['e', 'x']) :
    ∃ c, fld.head? = some c ∧ c.isDigit = false ∧ c ≠ ' ' ∧
      (isHexD c = false ∨ (c = 'e' ∧ fld.take 2 = ['e', 'x'])) := by
  rcases h with h | h | h
  · exact ⟨'.', h, by decide, by decide, Or.inl (by decide)⟩
  · exact ⟨'_', h, by decide, by decide, Or.inl (by decide)⟩
  · exact ⟨'e', take_two_head h, by decide, by decide, Or.inr ⟨rfl, h⟩⟩

theorem fld_head_mem {fld : List Char}
    (h : fld.head? = some '.' ∨ fld.head? = some '_' ∨ fld.take 2 = ['e', 'x']) :
    ∃ c, fld.head? = some c ∧ (c = '.' ∨ c = '_' ∨ c = 'e') := by
  rcases h with h | h | h
  · exact ⟨'.', h, Or.inl rfl⟩
  · exact ⟨'_', h, Or.inr (Or.inl rfl)⟩
  · exact ⟨'e', take_two_head h, Or.inr (Or.inr rfl)⟩

theorem dropWhile_two_space {t : List Char} {c : Char} (hh : t.head? = some c)
    (hc : c ≠ ' ') : (' ' :: ' ' :: t).dropWhile (fun x => x = ' ') = t := by
  have h2 : (' ' :: ' ' :: t) = [' ', ' '] ++ t := rfl
  rw [h2]
  exact dropWhile_space_decomp (by decide) hh hc

/-! ## Pairwise disjointness of the variable alternatives -/

theorem clash_1_2 (l : List Char) (ha : (map.lineAlt 1 l).isSome = true)
    (hb : (map.lineAlt 2 l).isSome = true) : False := by
  obtain ⟨w, hw⟩ := full_pac ha
  obtain ⟨nd, hnd⟩ := full_pac hb
  obtain ⟨hl, -, -⟩ := title_shape hw
  have hL : l.head? = some 'L' := by rw [hl]; rfl
  obtain ⟨ds, rest, hds, ⟨d, ds2, rfl, hdig⟩, -⟩ := node_first hnd
  rw [dropWhile_head_false hL (by decide)] at hds
  have hd : l.head? = some d := by rw [hds]; rfl
  rw [hL] at hd
  obtain rfl : 'L' = d := Option.some.inj hd
  exact absurd hdig (by decide)

theorem clash_1_3 (l : List Char) (ha : (map.lineAlt 1 l).isSome = true)
    (hb : (map.lineAlt 3 l).isSome = true) : False := by
  obtain ⟨w, hw⟩ := full_pac ha
  obtain ⟨sn, hsn⟩ := full_pac hb
  obtain ⟨hl, -, -⟩ := title_shape hw
  have hL : l.head? = some 'L' := by rw [hl]; rfl
  obtain ⟨nm, hl2, hne, -, hhd⟩ := section_title_shape hsn
  have hLn : nm.head? = some 'L' := by
    rw [← head?_eq_of_append_eq hl2 hne]
    exact hL
  rcases hhd with h | h | h
  · rw [h] at hLn; exact absurd (Option.some.inj hLn) (by decide)
  · rw [h] at hLn; exact absurd (Option.some.inj hLn) (by decide)
  · rw [take_two_head h] at hLn; exact absurd (Option.some.inj hLn) (by decide)

theorem clash_1_7 (l : List Char) (ha : (map.lineAlt 1 l).isSome = true)
    (hb : (map.lineAlt 7 l).isSome = true) : False := by
  obtain ⟨w, hw⟩ := full_pac ha
  obtain ⟨sy, hsy⟩ := full_pac hb
  obtain ⟨hl, -, -⟩ := title_shape hw
  have hL : l.head? = some 'L' := by rw [hl]; rfl
  obtain ⟨⟨h8, mid, hl2, -, -⟩, -⟩ := symbol_shape hsy
  rw [hl2] at hL
  exact absurd (Option.some.inj hL) (by decide)

theorem clash_1_11 (l : List Char) (ha : (map.lineAlt 1 l).isSome = true)
    (hb : (map.lineAlt 11 l).isSome = true) : False := by
  obtain ⟨w, hw⟩ := full_pac ha
  obtain ⟨e, he⟩ := full_pac hb
  obtain ⟨hl, -, -⟩ := title_shape hw
  have hL : l.head? = some 'L' := by rw [hl]; rfl
  obtain ⟨sp, fld, a8, b8, c8, hl2, hsp, -, -, hfhd, -, -, -⟩ := entry_shape he
  obtain ⟨hc, hchd, hcmem⟩ := fld_head_mem hfhd
  cases sp with
  | nil =>
    have hx : l.head? = some hc := by
      rw [hl2]
      simp only [List.nil_append]
      exact head?_append_left hchd
    rw [hL] at hx
    obtain rfl : 'L' = hc := Option.some.inj hx
    rcases hcmem with h | h | h <;> exact absurd h (by decide)
  | cons s0 sp2 =>
    have hs0 : s0 = ' ' := hsp s0 (by simp)
    have hx : l.head? = some s0 := by rw [hl2]; rfl
    rw [hL] at hx
    have h2 := Option.some.inj hx
    rw [hs0] at h2
    exact absurd h2 (by decide)

theorem clash_1_12 (l : List Char) (ha : (map.lineAlt 1 l).isSome = true)
    (hb : (map.lineAlt 12 l).isSome = true) : False := by
  obtain ⟨w, hw⟩ := full_pac ha
  obtain ⟨e, he⟩ := full_pac hb
  obtain ⟨hl, -, -⟩ := title_shape hw
  have hL : l.head? = some 'L' := by rw [hl]; rfl
  obtain ⟨sp, fld, a6, b8, hl2, hsp, -, hfhd, -, -⟩ := debug_entry_shape he
  cases sp with
  | nil =>
    have hx : l.head? = some '.' := by
      rw [hl2]
      simp only [List.nil_append]
      exact head?_append_left hfhd
    rw [hL] at hx
    exact absurd (Option.some.inj hx) (by decide)
  | cons s0 sp2 =>
    have hs0 : s0 = ' ' := hsp s0 (by simp)
    have hx : l.head? = some s0 := by rw [hl2]; rfl
    rw [hL] at hx
    have h2 := Option.some.inj hx
    rw [hs0] at h2
    exact absurd h2 (by decide)

theorem clash_1_14 (l : List Char) (ha : (map.lineAlt 1 l).isSome = true)
    (hb : (map.lineAlt 14 l).isSome = true) : False := by
  obtain ⟨w, hw⟩ := full_pac ha
  obtain ⟨e, he⟩ := full_pac hb
  obtain ⟨hl, -, hcls⟩ := title_shape hw
  obtain ⟨sp, fld, h8, hl2, -, hsf, -, h8len⟩ := linker_entry_shape he
  have h12 : ("Link map of ".toList).length = 12 := by decide
  have hlen1 := congrArg List.length hl
  have hlen2 := congrArg List.length hl2
  simp only [List.length_append, List.length_cons, List.length_nil] at hlen1 hlen2
  have hd1 : l.drop 25 = ' ' :: (h8 ++ []) := by
    rw [hl2, drop_append_ge (by simp only [List.length_append]; omega)]
    have h0 : 25 - (sp ++ fld).length = 0 := by
      simp only [List.length_append]
      omega
    rw [h0, List.drop_zero]
  have hd2 : l.drop 25 = w.drop 13 := by
    rw [hl, drop_append_ge (by rw [h12]; omega)]
    have h13 : 25 - ("Link map of ".toList).length = 13 := by decide
    rw [h13, List.append_nil]
  rw [hd1] at hd2
  have hspw : ' ' ∈ w.drop 13 := by
    rw [← hd2]
    simp
  rcases hcls ' ' (mem_of_mem_drop hspw) with h | h
  · exact absurd h (by decide)
  · exact absurd h (by decide)

theorem clash_2_3 (l : List Char) (ha : (map.lineAlt 2 l).isSome = true)
    (hb : (map.lineAlt 3 l).isSome = true) : False := by
  obtain ⟨nd, hnd⟩ := full_pac ha
  obtain ⟨sn, hsn⟩ := full_pac hb
  obtain ⟨nm, hl2, -, -, hhd⟩ := section_title_shape hsn
  obtain ⟨hc, hchd, hcnd, hcns, -⟩ := fld_head_char hhd
  have hlhd : l.head? = some hc := by
    rw [hl2]
    exact head?_append_left hchd
  obtain ⟨ds, rest, hds, ⟨d, ds2, rfl, hdig⟩, -⟩ := node_first hnd
  rw [dropWhile_head_false hlhd (by simp [hcns])] at hds
  have hd : l.head? = some d := by rw [hds]; rfl
  rw [hlhd] at hd
  obtain rfl : hc = d := Option.some.inj hd
  rw [hdig] at hcnd
  exact Bool.noConfusion hcnd

theorem clash_2_7 (l : List Char) (ha : (map.lineAlt 2 l).isSome = true)
    (hb : (map.lineAlt 7 l).isSome = true) : False := by
  obtain ⟨nd, hnd⟩ := full_pac ha
  obtain ⟨sy, hsy⟩ := full_pac hb
  obtain ⟨⟨h8, mid, hl2, h8len, h8hx⟩, -⟩ := symbol_shape hsy
  obtain ⟨c0, c1, h8t, rfl⟩ := @exists_cons_cons_of_two_le h8 (by omega)
  have hdw : l.dropWhile (fun x => x = ' ') = (c0 :: c1 :: h8t) ++ ' ' :: mid := by
    rw [hl2]
    exact dropWhile_two_space (head?_append_left rfl) (hex_ne_space (h8hx c0 (by simp)))
  obtain ⟨ds, rest, hds, -, hdig⟩ := node_first hnd
  rw [hdw] at hds
  exact run_clash (c0 :: c1 :: h8t) h8hx ds (' ' :: rest) mid hdig hds.symm

theorem clash_2_11 (l : List Char) (ha : (map.lineAlt 2 l).isSome = true)
    (hb : (map.lineAlt 11 l).isSome = true) : False := by
  obtain ⟨nd, hnd⟩ := full_pac ha
  obtain ⟨e, he⟩ := full_pac hb
  obtain ⟨sp, fld, a8, b8, c8, hl2, hsp, -, -, hfhd, -, -, -⟩ := entry_shape he
  obtain ⟨hc, hchd, hcnd, hcns, -⟩ := fld_head_char hfhd
  have hdw : l.dropWhile (fun x => x = ' ') =
      fld ++ (' ' :: ' ' :: (a8 ++ (' ' :: (b8 ++ (' ' :: (c8 ++ [])))))) := by
    rw [hl2, List.append_assoc]
    exact dropWhile_space_decomp hsp (head?_append_left hchd) hcns
  obtain ⟨ds, rest, hds, ⟨d, ds2, rfl, hdig⟩, -⟩ := node_first hnd
  rw [hdw] at hds
  have heq : d = hc := heads_eq hds.symm rfl hchd
  rw [← heq] at hcnd
  rw [hdig] at hcnd
  exact Bool.noConfusion hcnd

theorem clash_2_12 (l : List Char) (ha : (map.lineAlt 2 l).isSome = true)
    (hb : (map.lineAlt 12 l).isSome = true) : False := by
  obtain ⟨nd, hnd⟩ := full_pac ha
  obtain ⟨e, he⟩ := full_pac hb
  obtain ⟨sp, fld, a6, b8, hl2, hsp, -, hfhd, -, -⟩ := debug_entry_shape he
  have hdw : l.dropWhile (fun x => x = ' ') =
      fld ++ (List.replicate 11 ' ' ++ (a6 ++ (' ' :: (b8 ++ [])))) := by
    rw [hl2, List.append_assoc]
    exact dropWhile_space_decomp hsp (head?_append_left hfhd) (by decide)
  obtain ⟨ds, rest, hds, ⟨d, ds2, rfl, hdig⟩, -⟩ := node_first hnd
  rw [hdw] at hds
  have heq : d = '.' := heads_eq hds.symm rfl hfhd
  rw [heq] at hdig
  exact absurd hdig (by decide)

theorem clash_2_14 (l : List Char) (ha : (map.lineAlt 2 l).isSome = true)
    (hb : (map.lineAlt 14 l).isSome = true) : False := by
  obtain ⟨nd, hnd⟩ := full_pac ha
  obtain ⟨e, he⟩ := full_pac hb
  obtain ⟨sp, fld, h8, hl2, hsp, -, ⟨hc, hchd, hcok⟩, -⟩ := linker_entry_shape he
  have hcns : hc ≠ ' ' := by
    rcases hcok with h | rfl
    · intro hq
      rw [hq] at h
      exact absurd h (by decide)
    · decide
  have hdw : l.dropWhile (fun x => x = ' ') = fld ++ (' ' :: (h8 ++ [])) := by
    rw [hl2, List.append_assoc]
    exact dropWhile_space_decomp hsp (head?_append_left hchd) hcns
  obtain ⟨ds, rest, hds, ⟨d, ds2, rfl, hdig⟩, -⟩ := node_first hnd
  rw [hdw] at hds
  have heq : d = hc := heads_eq hds.symm rfl hchd
  rcases hcok with h | h
  · rw [← heq] at h
    rw [isAlpha_isDigit_false h] at hdig
    exact Bool.noConfusion hdig
  · rw [h] at heq
    rw [heq] at hdig
    exact absurd hdig (by decide)

theorem clash_3_7 (l : List Char) (ha : (map.lineAlt 3 l).isSome = true)
    (hb : (map.lineAlt 7 l).isSome = true) : False := by
  obtain ⟨sn, hsn⟩ := full_pac ha
  obtain ⟨sy, hsy⟩ := full_pac hb
  obtain ⟨nm, hl2, hne, hns, hhd⟩ := section_title_shape hsn
  obtain ⟨⟨h8, mid, hl3, -, -⟩, -⟩ := symbol_shape hsy
  have hsp : l.head? = some ' ' := by rw [hl3]; rfl
  have : nm.head? = some ' ' := by
    rw [← head?_eq_of_append_eq hl2 hne]
    exact hsp
  exact absurd (hns ' ' (head?_mem this)) (by simp)

theorem clash_3_11 (l : List Char) (ha : (map.lineAlt 3 l).isSome = true)
    (hb : (map.lineAlt 11 l).isSome = true) : False := by
  obtain ⟨sn, hsn⟩ := full_pac ha
  obtain ⟨e, he⟩ := full_pac hb
  obtain ⟨nm, hl2, -, hns, -⟩ := section_title_shape hsn
  obtain ⟨sp, fld, a8, b8, c8, hl3, -, hsf, -, -, halen, hblen, hclen⟩ := entry_shape he
  have h15 : (" section layout".toList).length = 15 := by decide
  have hlen1 := congrArg List.length hl2
  have hlen2 := congrArg List.length hl3
  simp only [List.length_append, List.length_cons, List.length_nil] at hlen1 hlen2
  have hnm : nm.length = 30 := by omega
  have hd1 : l.drop 17 = ' ' :: ' ' :: (a8 ++ (' ' :: (b8 ++ (' ' :: (c8 ++ []))))) := by
    rw [hl3, drop_append_ge (by simp only [List.length_append]; omega)]
    have h0 : 17 - (sp ++ fld).length = 0 := by
      simp only [List.length_append]
      omega
    rw [h0, List.drop_zero]
  have hd2 : l.drop 17 = nm.drop 17 ++ (" section layout".toList ++ []) := by
    rw [hl2, drop_append_of_le_length (by omega)]
  have hdne : nm.drop 17 ≠ [] := by
    intro hq
    have hx := congrArg List.length hq
    simp only [List.length_drop, List.length_nil] at hx
    omega
  obtain ⟨d, hd⟩ := head?_of_ne_nil hdne
  have hmem : d ∈ nm := mem_of_mem_drop (head?_mem hd)
  have hco := congrArg List.head? (hd2.symm.trans hd1)
  rw [head?_append_left hd] at hco
  simp only [List.head?_cons] at hco
  obtain rfl : d = ' ' := Option.some.inj hco
  exact hns ' ' hmem rfl

theorem clash_3_12 (l : List Char) (ha : (map.lineAlt 3 l).isSome = true)
    (hb : (map.lineAlt 12 l).isSome = true) : False := by
  obtain ⟨sn, hsn⟩ := full_pac ha
  obtain ⟨e, he⟩ := full_pac hb
  obtain ⟨nm, hl2, -, hns, -⟩ := section_title_shape hsn
  obtain ⟨sp, fld, a6, b8, hl3, -, hsf, -, halen, hblen⟩ := debug_entry_shape he
  have h15 : (" section layout".toList).length = 15 := by decide
  have hlen1 := congrArg List.length hl2
  have hlen2 := congrArg List.length hl3
  simp only [List.length_append, List.length_cons, List.length_nil,
    List.length_replicate] at hlen1 hlen2
  have hnm : nm.length = 28 := by omega
  have hd1 : l.drop 17 = List.replicate 11 ' ' ++ (a6 ++ (' ' :: (b8 ++ []))) := by
    rw [hl3, drop_append_ge (by simp only [List.length_append]; omega)]
    have h0 : 17 - (sp ++ fld).length = 0 := by
      simp only [List.length_append]
      omega
    rw [h0, List.drop_zero]
  have hd2 : l.drop 17 = nm.drop 17 ++ (" section layout".toList ++ []) := by
    rw [hl2, drop_append_of_le_length (by omega)]
  have hdne : nm.drop 17 ≠ [] := by
    intro hq
    have hx := congrArg List.length hq
    simp only [List.length_drop, List.length_nil] at hx
    omega
  obtain ⟨d, hd⟩ := head?_of_ne_nil hdne
  have hmem : d ∈ nm := mem_of_mem_drop (head?_mem hd)
  have hrep : (List.replicate 11 ' ').head? = some ' ' := by decide
  have hco := congrArg List.head? (hd2.symm.trans hd1)
  rw [head?_append_left hd, head?_append_left hrep] at hco
  obtain rfl : d = ' ' := Option.some.inj hco
  exact hns ' ' hmem rfl

theorem clash_3_14 (l : List Char) (ha : (map.lineAlt 3 l).isSome = true)
    (hb : (map.lineAlt 14 l).isSome = true) : False := by
  obtain ⟨sn, hsn⟩ := full_pac ha
  obtain ⟨e, he⟩ := full_pac hb
  obtain ⟨nm, hl2, -, hns, -⟩ := section_title_shape hsn
  obtain ⟨sp, fld, h8, hl3, -, hsf, -, h8len⟩ := linker_entry_shape he
  have h15 : (" section layout".toList).length = 15 := by decide
  have hlen1 := congrArg List.length hl2
  have hlen2 := congrArg List.length hl3
  simp only [List.length_append, List.length_cons, List.length_nil] at hlen1 hlen2
  have hnm : nm.length = 19 := by omega
  have hd1 : l.drop 25 = ' ' :: (h8 ++ []) := by
    rw [hl3, drop_append_ge (by simp only [List.length_append]; omega)]
    have h0 : 25 - (sp ++ fld).length = 0 := by
      simp only [List.length_append]
      omega
    rw [h0, List.drop_zero]
  have hd2 : l.drop 25 = (" section layout".toList ++ []).drop 6 := by
    rw [hl2, drop_append_ge (by omega), hnm]
  rw [hd1] at hd2
  have hx : ((" section layout".toList ++ []).drop 6).head? = some 'o' := by decide
  have hco := congrArg List.head? hd2
  rw [hx] at hco
  simp only [List.head?_cons] at hco
  exact absurd (Option.some.inj hco) (by decide)

theorem clash_7_11 (l : List Char) (ha : (map.lineAlt 7 l).isSome = true)
    (hb : (map.lineAlt 11 l).isSome = true) : False := by
  obtain ⟨sy, hsy⟩ := full_pac ha
  obtain ⟨e, he⟩ := full_pac hb
  obtain ⟨⟨h8, mid, hl2, h8len, h8hx⟩, -⟩ := symbol_shape hsy
  obtain ⟨sp, fld, a8, b8, c8, hl3, hsp, -, -, hfhd, -, -, -⟩ := entry_shape he
  obtain ⟨c0, c1, h8t, rfl⟩ := @exists_cons_cons_of_two_le h8 (by omega)
  obtain ⟨hc, hchd, -, hcns, hcrest⟩ := fld_head_char hfhd
  have hdw1 : l.dropWhile (fun x => x = ' ') = (c0 :: c1 :: h8t) ++ ' ' :: mid := by
    rw [hl2]
    exact dropWhile_two_space (head?_append_left rfl) (hex_ne_space (h8hx c0 (by simp)))
  have hdw2 : l.dropWhile (fun x => x = ' ') =
      fld ++ (' ' :: ' ' :: (a8 ++ (' ' :: (b8 ++ (' ' :: (c8 ++ [])))))) := by
    rw [hl3, List.append_assoc]
    exact dropWhile_space_decomp hsp (head?_append_left hchd) hcns
  have heq := hdw1.symm.trans hdw2
  rcases hcrest with hnothex | ⟨rfl, htake⟩
  · have hce : c0 = hc := heads_eq heq rfl hchd
    rw [← hce] at hnothex
    rw [h8hx c0 (by simp)] at hnothex
    exact Bool.noConfusion hnothex
  · obtain ⟨fldt, rfl⟩ := take_two_eq htake
    simp only [List.cons_append, List.cons.injEq] at heq
    obtain ⟨-, h2, -⟩ := heq
    have hcx := h8hx c1 (by simp)
    rw [h2] at hcx
    exact absurd hcx (by decide)

theorem clash_7_12 (l : List Char) (ha : (map.lineAlt 7 l).isSome = true)
    (hb : (map.lineAlt 12 l).isSome = true) : False := by
  obtain ⟨sy, hsy⟩ := full_pac ha
  obtain ⟨e, he⟩ := full_pac hb
  obtain ⟨⟨h8, mid, hl2, h8len, h8hx⟩, -⟩ := symbol_shape hsy
  obtain ⟨sp, fld, a6, b8, hl3, hsp, -, hfhd, -, -⟩ := debug_entry_shape he
  obtain ⟨c0, c1, h8t, rfl⟩ := @exists_cons_cons_of_two_le h8 (by omega)
  have hdw1 : l.dropWhile (fun x => x = ' ') = (c0 :: c1 :: h8t) ++ ' ' :: mid := by
    rw [hl2]
    exact dropWhile_two_space (head?_append_left rfl) (hex_ne_space (h8hx c0 (by simp)))
  have hdw2 : l.dropWhile (fun x => x = ' ') =
      fld ++ (List.replicate 11 ' ' ++ (a6 ++ (' ' :: (b8 ++ [])))) := by
    rw [hl3, List.append_assoc]
    exact dropWhile_space_decomp hsp (head?_append_left hfhd) (by decide)
  have heq := hdw1.symm.trans hdw2
  have hce : c0 = '.' := heads_eq heq rfl hfhd
  have hcx := h8hx c0 (by simp)
  rw [hce] at hcx
  exact absurd hcx (by decide)

theorem clash_7_14 (l : List Char) (ha : (map.lineAlt 7 l).isSome = true)
    (hb : (map.lineAlt 14 l).isSome = true) : False := by
  obtain ⟨sy, hsy⟩ := full_pac ha
  obtain ⟨e, he⟩ := full_pac hb
  obtain ⟨-, hlen36⟩ := symbol_shape hsy
  obtain ⟨sp, fld, h8, hl3, -, hsf, -, h8len⟩ := linker_entry_shape he
  have hlen2 := congrArg List.length hl3
  simp only [List.length_append, List.length_cons, List.length_nil] at hlen2
  simp only [List.length_nil] at hlen36
  omega

theorem clash_11_12 (l : List Char) (ha : (map.lineAlt 11 l).isSome = true)
    (hb : (map.lineAlt 12 l).isSome = true) : False := by
  obtain ⟨e1, he1⟩ := full_pac ha
  obtain ⟨e2, he2⟩ := full_pac hb
  obtain ⟨sp, fld, a8, b8, c8, hl3, -, hsf, -, -, halen, hblen, hclen⟩ := entry_shape he1
  obtain ⟨sp2, fld2, a6, b82, hl4, -, hsf2, -, halen2, hblen2⟩ := debug_entry_shape he2
  have hL1 := congrArg List.length hl3
  have hL2 := congrArg List.length hl4
  simp only [List.length_append, List.length_cons, List.length_nil,
    List.length_replicate] at hL1 hL2
  omega

theorem clash_11_14 (l : List Char) (ha : (map.lineAlt 11 l).isSome = true)
    (hb : (map.lineAlt 14 l).isSome = true) : False := by
  obtain ⟨e1, he1⟩ := full_pac ha
  obtain ⟨e2, he2⟩ := full_pac hb
  obtain ⟨sp, fld, a8, b8, c8, hl3, -, hsf, -, -, halen, hblen, hclen⟩ := entry_shape he1
  obtain ⟨sp2, fld2, h8, hl4, -, hsf2, -, h8len⟩ := linker_entry_shape he2
  have hL1 := congrArg List.length hl3
  have hL2 := congrArg List.length hl4
  simp only [List.length_append, List.length_cons, List.length_nil] at hL1 hL2
  omega

theorem clash_12_14 (l : List Char) (ha : (map.lineAlt 12 l).isSome = true)
    (hb : (map.lineAlt 14 l).isSome = true) : False := by
  obtain ⟨e1, he1⟩ := full_pac ha
  obtain ⟨e2, he2⟩ := full_pac hb
  obtain ⟨sp, fld, a6, b8, hl3, -, hsf, -, halen, hblen⟩ := debug_entry_shape he1
  obtain ⟨sp2, fld2, h8, hl4, -, hsf2, -, h8len⟩ := linker_entry_shape he2
  have hL1 := congrArg List.length hl3
  have hL2 := congrArg List.length hl4
  simp only [List.length_append, List.length_cons, List.length_nil,
    List.length_replicate] at hL1 hL2
  omega

/-! ## Claim C5: debug-section name aliasing -/

/-- C5: `debug_section_name` maps the exact input `.debug` to the Main debug
section; maps both `.debug_line` and `.debug_info` to `Info` (the legacy
aliasing is preserved, `.debug_line` does not map to `Line`); and maps the
standalone input `.line` to the line-number debug section `Line`. -/
theorem c5_debug_section_aliasing :
    memory_table.debug_section_name ".debug".toList =
      some ([], map.DebugSectionName.Main) ∧
    memory_table.debug_section_name ".debug_line".toList =
      some ([], map.DebugSectionName.Info) ∧
    memory_table.debug_section_name ".debug_info".toList =
      some ([], map.DebugSectionName.Info) ∧
    memory_table.debug_section_name ".line".toList =
      some ([], map.DebugSectionName.Line) := by
  refine ⟨by decide, by decide, by decide, by decide⟩

/-! ## Claim C6: end-to-end child row -/

/-- C6: the line of two spaces, `00000250 000000 80003350 __fill_mem (entry of
memset) `, a tab, and `__mem.o ` is classified by `line` as a `SectionSymbol`
whose data is `Child` with parent `Named "memset"`, own identifier
`Named "__fill_mem"`, section-local address 0x250, virtual address 0x80003350,
and no file address. -/
theorem c6_child_row_classification :
    map.line "  00000250 000000 80003350 __fill_mem (entry of memset) \t__mem.o ".toList =
      some ([], map.Line.SectionSymbol
        { addr := 0x250
          virt_addr := 0x80003350
          file_addr := none
          data := section_table.Data.Child (map.Identifier.Named "memset".toList none)
          id := map.Identifier.Named "__fill_mem".toList none
          origin := { obj := "__mem.o".toList, src := none, asm := false } }) := by
  decide

/-! ## Claim C9: the UNUSED row is not recognized -/

/-- C9: the sample unused-symbol row (two spaces, then
`UNUSED   000004 ........ ........    OSVReport os.a OSError.o `) is rejected
by the dispatcher `line`: no alternative fully consumes it. -/
theorem c9_unused_row_rejected :
    map.line "  UNUSED   000004 ........ ........    OSVReport os.a OSError.o ".toList =
      none := by
  decide

/-! ## Claim C2 counterexample: hex on a longer digit run -/

/-- C2 counterexample: on an input presenting a run of three hex digits,
`hex(2)` does not fail; it succeeds, consuming only the first two digits and
returning their value, contradicting the claim that more digits than `n`
always fail. -/
theorem c2_hex_longer_run_succeeds :
    map.hex 2 "fff".toList = some ("f".toList, 0xff) := by
  decide

/-! ## Claim C3 counterexample: fallback on a token extending a fixed name -/

/-- C3 counterexample: on the input `.text2` (a dot-prefixed alphanumeric
token that is not a fixed section name), `section_name` does not consume the
whole token and does not return `Unknown "text2"`: the `text` tag matches and
it returns `Text` leaving `2` unconsumed. -/
theorem c3_text2_matches_fixed_name :
    map.section_name ".text2".toList = some ("2".toList, map.SectionName.Text) := by
  decide



/-! ## Claim C1: exclusivity of the line dispatcher -/

/-- C1: the alternatives tried by the line dispatcher are pairwise disjoint on
full matches: if the alternatives at indices i and j of the dispatcher (as
enumerated by map.lineAlt, each wrapped in all_consuming) both accept the same
line, then i = j, so at most one alternative fully consumes any given line. -/
theorem c1_line_alternatives_disjoint (l : List Char) (i j : Nat)
    (hi2 : i < 15) (hj2 : j < 15)
    (hi : (map.lineAlt i l).isSome = true)
    (hj : (map.lineAlt j l).isSome = true) : i = j := by
  interval_cases i <;> interval_cases j
  · rfl
  · obtain rfl := fullAlt0_eq hi; exact absurd hj (by decide)
  · obtain rfl := fullAlt0_eq hi; exact absurd hj (by decide)
  · obtain rfl := fullAlt0_eq hi; exact absurd hj (by decide)
  · obtain rfl := fullAlt0_eq hi; exact absurd hj (by decide)
  · obtain rfl := fullAlt0_eq hi; exact absurd hj (by decide)
  · obtain rfl := fullAlt0_eq hi; exact absurd hj (by decide)
  · obtain rfl := fullAlt0_eq hi; exact absurd hj (by decide)
  · obtain rfl := fullAlt0_eq hi; exact absurd hj (by decide)
  · obtain rfl := fullAlt0_eq hi; exact absurd hj (by decide)
  · obtain rfl := fullAlt0_eq hi; exact absurd hj (by decide)
  · obtain rfl := fullAlt0_eq hi; exact absurd hj (by decide)
  · obtain rfl := fullAlt0_eq hi; exact absurd hj (by decide)
  · obtain rfl := fullAlt0_eq hi; exact absurd hj (by decide)
  · obtain rfl := fullAlt0_eq hi; exact absurd hj (by decide)
  · obtain rfl := fullAlt0_eq hj; exact absurd hi (by decide)
  · rfl
  · exact (clash_1_2 l hi hj).elim
  · exact (clash_1_3 l hi hj).elim
  · obtain rfl := fullAlt4_eq hj; exact absurd hi (by decide)
  · obtain rfl := fullAlt5_eq hj; exact absurd hi (by decide)
  · obtain rfl := fullAlt6_eq hj; exact absurd hi (by decide)
  · exact (clash_1_7 l hi hj).elim
  · obtain rfl := fullAlt8_eq hj; exact absurd hi (by decide)
  · obtain rfl := fullAlt9_eq hj; exact absurd hi (by decide)
  · obtain rfl := fullAlt10_eq hj; exact absurd hi (by decide)
  · exact (clash_1_11 l hi hj).elim
  · exact (clash_1_12 l hi hj).elim
  · obtain rfl := fullAlt13_eq hj; exact absurd hi (by decide)
  · exact (clash_1_14 l hi hj).elim
  · obtain rfl := fullAlt0_eq hj; exact absurd hi (by decide)
  · exact (clash_1_2 l hj hi).elim
  · rfl
  · exact (clash_2_3 l hi hj).elim
  · obtain rfl := fullAlt4_eq hj; exact absurd hi (by decide)
  · obtain rfl := fullAlt5_eq hj; exact absurd hi (by decide)
  · obtain rfl := fullAlt6_eq hj; exact absurd hi (by decide)
  · exact (clash_2_7 l hi hj).elim
  · obtain rfl := fullAlt8_eq hj; exact absurd hi (by decide)
  · obtain rfl := fullAlt9_eq hj; exact absurd hi (by decide)
  · obtain rfl := fullAlt10_eq hj; exact absurd hi (by decide)
  · exact (clash_2_11 l hi hj).elim
  · exact (clash_2_12 l hi hj).elim
  · obtain rfl := fullAlt13_eq hj; exact absurd hi (by decide)
  · exact (clash_2_14 l hi hj).elim
  · obtain rfl := fullAlt0_eq hj; exact absurd hi (by decide)
  · exact (clash_1_3 l hj hi).elim
  · exact (clash_2_3 l hj hi).elim
  · rfl
  · obtain rfl := fullAlt4_eq hj; exact absurd hi (by decide)
  · obtain rfl := fullAlt5_eq hj; exact absurd hi (by decide)
  · obtain rfl := fullAlt6_eq hj; exact absurd hi (by decide)
  · exact (clash_3_7 l hi hj).elim
  · obtain rfl := fullAlt8_eq hj; exact absurd hi (by decide)
  · obtain rfl := fullAlt9_eq hj; exact absurd hi (by decide)
  · obtain rfl := fullAlt10_eq hj; exact absurd hi (by decide)
  · exact (clash_3_11 l hi hj).elim
  · exact (clash_3_12 l hi hj).elim
  · obtain rfl := fullAlt13_eq hj; exact absurd hi (by decide)
  · exact (clash_3_14 l hi hj).elim
  · obtain rfl := fullAlt4_eq hi; exact absurd hj (by decide)
  · obtain rfl := fullAlt4_eq hi; exact absurd hj (by decide)
  · obtain rfl := fullAlt4_eq hi; exact absurd hj (by decide)
  · obtain rfl := fullAlt4_eq hi; exact absurd hj (by decide)
  · rfl
  · obtain rfl := fullAlt4_eq hi; exact absurd hj (by decide)
  · obtain rfl := fullAlt4_eq hi; exact absurd hj (by decide)
  · obtain rfl := fullAlt4_eq hi; exact absurd hj (by decide)
  · obtain rfl := fullAlt4_eq hi; exact absurd hj (by decide)
  · obtain rfl := fullAlt4_eq hi; exact absurd hj (by decide)
  · obtain rfl := fullAlt4_eq hi; exact absurd hj (by decide)
  · obtain rfl := fullAlt4_eq hi; exact absurd hj (by decide)
  · obtain rfl := fullAlt4_eq hi; exact absurd hj (by decide)
  · obtain rfl := fullAlt4_eq hi; exact absurd hj (by decide)
  · obtain rfl := fullAlt4_eq hi; exact absurd hj (by decide)
  · obtain rfl := fullAlt5_eq hi; exact absurd hj (by decide)
  · obtain rfl := fullAlt5_eq hi; exact absurd hj (by decide)
  · obtain rfl := fullAlt5_eq hi; exact absurd hj (by decide)
  · obtain rfl := fullAlt5_eq hi; exact absurd hj (by decide)
  · obtain rfl := fullAlt5_eq hi; exact absurd hj (by decide)
  · rfl
  · obtain rfl := fullAlt5_eq hi; exact absurd hj (by decide)
  · obtain rfl := fullAlt5_eq hi; exact absurd hj (by decide)
  · obtain rfl := fullAlt5_eq hi; exact absurd hj (by decide)
  · obtain rfl := fullAlt5_eq hi; exact absurd hj (by decide)
  · obtain rfl := fullAlt5_eq hi; exact absurd hj (by decide)
  · obtain rfl := fullAlt5_eq hi; exact absurd hj (by decide)
  · obtain rfl := fullAlt5_eq hi; exact absurd hj (by decide)
  · obtain rfl := fullAlt5_eq hi; exact absurd hj (by decide)
  · obtain rfl := fullAlt5_eq hi; exact absurd hj (by decide)
  · obtain rfl := fullAlt6_eq hi; exact absurd hj (by decide)
  · obtain rfl := fullAlt6_eq hi; exact absurd hj (by decide)
  · obtain rfl := fullAlt6_eq hi; exact absurd hj (by decide)
  · obtain rfl := fullAlt6_eq hi; exact absurd hj (by decide)
  · obtain rfl := fullAlt6_eq hi; exact absurd hj (by decide)
  · obtain rfl := fullAlt6_eq hi; exact absurd hj (by decide)
  · rfl
  · obtain rfl := fullAlt6_eq hi; exact absurd hj (by decide)
  · obtain rfl := fullAlt6_eq hi; exact absurd hj (by decide)
  · obtain rfl := fullAlt6_eq hi; exact absurd hj (by decide)
  · obtain rfl := fullAlt6_eq hi; exact absurd hj (by decide)
  · obtain rfl := fullAlt6_eq hi; exact absurd hj (by decide)
  · obtain rfl := fullAlt6_eq hi; exact absurd hj (by decide)
  · obtain rfl := fullAlt6_eq hi; exact absurd hj (by decide)
  · obtain rfl := fullAlt6_eq hi; exact absurd hj (by decide)
  · obtain rfl := fullAlt0_eq hj; exact absurd hi (by decide)
  · exact (clash_1_7 l hj hi).elim
  · exact (clash_2_7 l hj hi).elim
  · exact (clash_3_7 l hj hi).elim
  · obtain rfl := fullAlt4_eq hj; exact absurd hi (by decide)
  · obtain rfl := fullAlt5_eq hj; exact absurd hi (by decide)
  · obtain rfl := fullAlt6_eq hj; exact absurd hi (by decide)
  · rfl
  · obtain rfl := fullAlt8_eq hj; exact absurd hi (by decide)
  · obtain rfl := fullAlt9_eq hj; exact absurd hi (by decide)
  · obtain rfl := fullAlt10_eq hj; exact absurd hi (by decide)
  · exact (clash_7_11 l hi hj).elim
  · exact (clash_7_12 l hi hj).elim
  · obtain rfl := fullAlt13_eq hj; exact absurd hi (by decide)
  · exact (clash_7_14 l hi hj).elim
  · obtain rfl := fullAlt8_eq hi; exact absurd hj (by decide)
  · obtain rfl := fullAlt8_eq hi; exact absurd hj (by decide)
  · obtain rfl := fullAlt8_eq hi; exact absurd hj (by decide)
  · obtain rfl := fullAlt8_eq hi; exact absurd hj (by decide)
  · obtain rfl := fullAlt8_eq hi; exact absurd hj (by decide)
  · obtain rfl := fullAlt8_eq hi; exact absurd hj (by decide)
  · obtain rfl := fullAlt8_eq hi; exact absurd hj (by decide)
  · obtain rfl := fullAlt8_eq hi; exact absurd hj (by decide)
  · rfl
  · obtain rfl := fullAlt8_eq hi; exact absurd hj (by decide)
  · obtain rfl := fullAlt8_eq hi; exact absurd hj (by decide)
  · obtain rfl := fullAlt8_eq hi; exact absurd hj (by decide)
  · obtain rfl := fullAlt8_eq hi; exact absurd hj (by decide)
  · obtain rfl := fullAlt8_eq hi; exact absurd hj (by decide)
  · obtain rfl := fullAlt8_eq hi; exact absurd hj (by decide)
  · obtain rfl := fullAlt9_eq hi; exact absurd hj (by decide)
  · obtain rfl := fullAlt9_eq hi; exact absurd hj (by decide)
  · obtain rfl := fullAlt9_eq hi; exact absurd hj (by decide)
  · obtain rfl := fullAlt9_eq hi; exact absurd hj (by decide)
  · obtain rfl := fullAlt9_eq hi; exact absurd hj (by decide)
  · obtain rfl := fullAlt9_eq hi; exact absurd hj (by decide)
  · obtain rfl := fullAlt9_eq hi; exact absurd hj (by decide)
  · obtain rfl := fullAlt9_eq hi; exact absurd hj (by decide)
  · obtain rfl := fullAlt9_eq hi; exact absurd hj (by decide)
  · rfl
  · obtain rfl := fullAlt9_eq hi; exact absurd hj (by decide)
  · obtain rfl := fullAlt9_eq hi; exact absurd hj (by decide)
  · obtain rfl := fullAlt9_eq hi; exact absurd hj (by decide)
  · obtain rfl := fullAlt9_eq hi; exact absurd hj (by decide)
  · obtain rfl := fullAlt9_eq hi; exact absurd hj (by decide)
  · obtain rfl := fullAlt10_eq hi; exact absurd hj (by decide)
  · obtain rfl := fullAlt10_eq hi; exact absurd hj (by decide)
  · obtain rfl := fullAlt10_eq hi; exact absurd hj (by decide)
  · obtain rfl := fullAlt10_eq hi; exact absurd hj (by decide)
  · obtain rfl := fullAlt10_eq hi; exact absurd hj (by decide)
  · obtain rfl := fullAlt10_eq hi; exact absurd hj (by decide)
  · obtain rfl := fullAlt10_eq hi; exact absurd hj (by decide)
  · obtain rfl := fullAlt10_eq hi; exact absurd hj (by decide)
  · obtain rfl := fullAlt10_eq hi; exact absurd hj (by decide)
  · obtain rfl := fullAlt10_eq hi; exact absurd hj (by decide)
  · rfl
  · obtain rfl := fullAlt10_eq hi; exact absurd hj (by decide)
  · obtain rfl := fullAlt10_eq hi; exact absurd hj (by decide)
  · obtain rfl := fullAlt10_eq hi; exact absurd hj (by decide)
  · obtain rfl := fullAlt10_eq hi; exact absurd hj (by decide)
  · obtain rfl := fullAlt0_eq hj; exact absurd hi (by decide)
  · exact (clash_1_11 l hj hi).elim
  · exact (clash_2_11 l hj hi).elim
  · exact (clash_3_11 l hj hi).elim
  · obtain rfl := fullAlt4_eq hj; exact absurd hi (by decide)
  · obtain rfl := fullAlt5_eq hj; exact absurd hi (by decide)
  · obtain rfl := fullAlt6_eq hj; exact absurd hi (by decide)
  · exact (clash_7_11 l hj hi).elim
  · obtain rfl := fullAlt8_eq hj; exact absurd hi (by decide)
  · obtain rfl := fullAlt9_eq hj; exact absurd hi (by decide)
  · obtain rfl := fullAlt10_eq hj; exact absurd hi (by decide)
  · rfl
  · exact (clash_11_12 l hi hj).elim
  · obtain rfl := fullAlt13_eq hj; exact absurd hi (by decide)
  · exact (clash_11_14 l hi hj).elim
  · obtain rfl := fullAlt0_eq hj; exact absurd hi (by decide)
  · exact (clash_1_12 l hj hi).elim
  · exact (clash_2_12 l hj hi).elim
  · exact (clash_3_12 l hj hi).elim
  · obtain rfl := fullAlt4_eq hj; exact absurd hi (by decide)
  · obtain rfl := fullAlt5_eq hj; exact absurd hi (by decide)
  · obtain rfl := fullAlt6_eq hj; exact absurd hi (by decide)
  · exact (clash_7_12 l hj hi).elim
  · obtain rfl := fullAlt8_eq hj; exact absurd hi (by decide)
  · obtain rfl := fullAlt9_eq hj; exact absurd hi (by decide)
  · obtain rfl := fullAlt10_eq hj; exact absurd hi (by decide)
  · exact (clash_11_12 l hj hi).elim
  · rfl
  · obtain rfl := fullAlt13_eq hj; exact absurd hi (by decide)
  · exact (clash_12_14 l hi hj).elim
  · obtain rfl := fullAlt13_eq hi; exact absurd hj (by decide)
  · obtain rfl := fullAlt13_eq hi; exact absurd hj (by decide)
  · obtain rfl := fullAlt13_eq hi; exact absurd hj (by decide)
  · obtain rfl := fullAlt13_eq hi; exact absurd hj (by decide)
  · obtain rfl := fullAlt13_eq hi; exact absurd hj (by decide)
  · obtain rfl := fullAlt13_eq hi; exact absurd hj (by decide)
  · obtain rfl := fullAlt13_eq hi; exact absurd hj (by decide)
  · obtain rfl := fullAlt13_eq hi; exact absurd hj (by decide)
  · obtain rfl := fullAlt13_eq hi; exact absurd hj (by decide)
  · obtain rfl := fullAlt13_eq hi; exact absurd hj (by decide)
  · obtain rfl := fullAlt13_eq hi; exact absurd hj (by decide)
  · obtain rfl := fullAlt13_eq hi; exact absurd hj (by decide)
  · obtain rfl := fullAlt13_eq hi; exact absurd hj (by decide)
  · rfl
  · obtain rfl := fullAlt13_eq hi; exact absurd hj (by decide)
  · obtain rfl := fullAlt0_eq hj; exact absurd hi (by decide)
  · exact (clash_1_14 l hj hi).elim
  · exact (clash_2_14 l hj hi).elim
  · exact (clash_3_14 l hj hi).elim
  · obtain rfl := fullAlt4_eq hj; exact absurd hi (by decide)
  · obtain rfl := fullAlt5_eq hj; exact absurd hi (by decide)
  · obtain rfl := fullAlt6_eq hj; exact absurd hi (by decide)
  · exact (clash_7_14 l hj hi).elim
  · obtain rfl := fullAlt8_eq hj; exact absurd hi (by decide)
  · obtain rfl := fullAlt9_eq hj; exact absurd hi (by decide)
  · obtain rfl := fullAlt10_eq hj; exact absurd hi (by decide)
  · exact (clash_11_14 l hj hi).elim
  · exact (clash_12_14 l hj hi).elim
  · obtain rfl := fullAlt13_eq hj; exact absurd hi (by decide)
  · rfl

theorem c1_line_alternatives_disjoint_witness :
    (8 : Nat) < 15 ∧ (map.lineAlt 8 "Memory map:".toList).isSome = true ∧
      (8 : Nat) = 8 :=
  ⟨by decide, by decide,
    c1_line_alternatives_disjoint "Memory map:".toList 8 8 (by decide) (by decide)
      (by decide) (by decide)⟩


/-! ## Further helper lemmas for the remaining claims -/

theorem takeWhile_all {p : Char → Bool} {l : List Char} (h : ∀ c ∈ l, p c = true) :
    l.takeWhile p = l := by
  induction l with
  | nil => rfl
  | cons x t ih =>
    simp only [List.takeWhile_cons, h x (by simp), if_true]
    rw [ih (fun c hc => h c (by simp [hc]))]

theorem dropWhile_all {p : Char → Bool} {l : List Char} (h : ∀ c ∈ l, p c = true) :
    l.dropWhile p = [] := by
  induction l with
  | nil => rfl
  | cons x t ih =>
    simp only [List.dropWhile_cons, h x (by simp), if_true]
    exact ih (fun c hc => h c (by simp [hc]))

theorem ptag_none {s l : List Char} (h : ¬ (s <+: l)) : ptag s l = none := by
  unfold ptag
  rw [if_neg]
  intro hq
  refine h ⟨l.drop s.length, ?_⟩
  nth_rewrite 1 [← hq]
  exact List.take_append_drop s.length l

theorem pmap_none {α β : Type} {p : P α} {f : α → β} {l : List Char}
    (h : p l = none) : pmap p f l = none := by
  unfold pmap
  rw [h]
  rfl

theorem por_none_left {α : Type} {p q : P α} {l : List Char} (h : p l = none) :
    por p q l = q l := by
  unfold por
  rw [h]

theorem ppre_pchar_none {α : Type} {q : P α} {c : Char} {t : List Char}
    (h : q t = none) : ppre (pchar c) q (c :: t) = none := by
  unfold ppre pmap pseq
  have hc : pchar c (c :: t) = some (t, c) := pchar_eq_some.mpr ⟨rfl, rfl⟩
  rw [hc]
  simp [h]

theorem exfam_mid {α β : Type} {M : P α} {f : ((Option Char × Option Char) × α) × Option Char → β}
    {t : List Char} {x : List Char × β}
    (h : pmap (pseq (pseq (pseq (popt (pchar '.')) (popt (pchar '_'))) M)
      (popt (pchar '_'))) f ('.' :: t) = some x) :
    ∃ m2 rm v, M m2 = some (rm, v) ∧ (m2 = t ∨ t = '_' :: m2) := by
  obtain ⟨r, w⟩ := x
  obtain ⟨u, hu, -⟩ := pmap_eq_some.mp h
  obtain ⟨m, a, b, hX, hD, -⟩ := pseq_eq_some.mp hu
  obtain ⟨m2, a2, b2, hY, hC, -⟩ := pseq_eq_some.mp hX
  obtain ⟨m3, a3, b3, hA, hB, -⟩ := pseq_eq_some.mp hY
  have hcomp : popt (pchar '.') ('.' :: t) = some (t, some '.') := rfl
  rw [hcomp] at hA
  obtain ⟨heq, -⟩ := someInj2 hA
  subst heq
  rcases popt_eq_some.mp hB with ⟨u2, hpc, -⟩ | ⟨-, hm2, -⟩
  · obtain ⟨ht, -⟩ := pchar_eq_some.mp hpc
    exact ⟨m2, m, b2, hC, Or.inr ht⟩
  · subst hm2
    exact ⟨m2, m, b2, hC, Or.inl rfl⟩

theorem extab_none {t : List Char} (h1 : ¬ ("extab".toList <+: t))
    (h2 : ¬ ("_extab".toList <+: t)) : map.extab ('.' :: t) = none := by
  cases hx : map.extab ('.' :: t) with
  | none => rfl
  | some x =>
    exfalso
    unfold map.extab at hx
    obtain ⟨m2, rm, v, hC, hcase⟩ := exfam_mid hx
    obtain ⟨hm2eq, -⟩ := ptag_eq_some.mp hC
    rcases hcase with rfl | ht
    · exact h1 ⟨rm, hm2eq.symm⟩
    · refine h2 ⟨rm, ?_⟩
      rw [ht, hm2eq]
      rfl

theorem extabindex_none {t : List Char}
    (h1 : ¬ ("extab".toList <+: t)) (h2 : ¬ ("_extab".toList <+: t))
    (h3 : ¬ ("exidx".toList <+: t)) (h4 : ¬ ("_exidx".toList <+: t)) :
    map.extabindex ('.' :: t) = none := by
  have hEI : "extab".toList ++ "index".toList = "extabindex".toList := by decide
  cases hx : map.extabindex ('.' :: t) with
  | none => rfl
  | some x =>
    exfalso
    unfold map.extabindex at hx
    obtain ⟨m2, rm, v, hC, hcase⟩ := exfam_mid hx
    rcases por_eq_some.mp hC with hC2 | ⟨-, hC2⟩ <;>
      obtain ⟨hm2eq, -⟩ := ptag_eq_some.mp hC2
    · rcases hcase with rfl | ht
      · refine h1 ⟨"index".toList ++ rm, ?_⟩
        rw [← List.append_assoc, hEI]
        exact hm2eq.symm
      · refine h2 ⟨"index".toList ++ rm, ?_⟩
        rw [ht, hm2eq, ← List.append_assoc]
        show ('_' :: "extab".toList) ++ ("index".toList ++ rm) = _
        rw [← List.append_assoc, List.cons_append, hEI]
        rfl
    · rcases hcase with rfl | ht
      · exact h3 ⟨rm, hm2eq.symm⟩
      · refine h4 ⟨rm, ?_⟩
        rw [ht, hm2eq]
        rfl

/-- C3 (amended): the Unknown fallback of section_name. -/
theorem c3_section_name_unknown_fallback (t : List Char)
    (hne : t ≠ []) (hsec : ∀ c ∈ t, isSecChar c = true)
    (hpre : ∀ s : String, s ∈ ["bss", "ctors", "data", "dtors", "init", "rodata",
        "sbss2", "sbss", "sdata2", "sdata", "text", "extab", "_extab",
        "exidx", "_exidx"] → ¬ (s.toList <+: t)) :
    map.section_name ('.' :: t) = some ([], map.SectionName.Unknown t) := by
  unfold map.section_name
  rw [por_none_left (extabindex_none (hpre "extab" (by simp)) (hpre "_extab" (by simp))
    (hpre "exidx" (by simp)) (hpre "_exidx" (by simp)))]
  rw [por_none_left (extab_none (hpre "extab" (by simp)) (hpre "_extab" (by simp)))]
  refine Eq.trans (por_none_left (ppre_pchar_none ?_)) ?_
  · rw [por_none_left (pmap_none (ptag_none (hpre "bss" (by simp))))]
    rw [por_none_left (pmap_none (ptag_none (hpre "ctors" (by simp))))]
    rw [por_none_left (pmap_none (ptag_none (hpre "data" (by simp))))]
    rw [por_none_left (pmap_none (ptag_none (hpre "dtors" (by simp))))]
    rw [por_none_left (pmap_none (ptag_none (hpre "init" (by simp))))]
    rw [por_none_left (pmap_none (ptag_none (hpre "rodata" (by simp))))]
    rw [por_none_left (pmap_none (ptag_none (hpre "sbss2" (by simp))))]
    rw [por_none_left (pmap_none (ptag_none (hpre "sbss" (by simp))))]
    rw [por_none_left (pmap_none (ptag_none (hpre "sdata2" (by simp))))]
    rw [por_none_left (pmap_none (ptag_none (hpre "sdata" (by simp))))]
    exact pmap_none (ptag_none (hpre "text" (by simp)))
  · refine pmap_eq_some.mpr ⟨t, ?_, rfl⟩
    refine ppre_eq_some.mpr ⟨t, '.', pchar_eq_some.mpr ⟨rfl, rfl⟩, ?_⟩
    exact ptakeWhile1_eq_some.mpr ⟨(takeWhile_all hsec).symm, (dropWhile_all hsec).symm, hne⟩

theorem c3_section_name_unknown_fallback_witness :
    map.section_name ('.' :: "mwcats".toList) =
      some ([], map.SectionName.Unknown "mwcats".toList) :=
  c3_section_name_unknown_fallback "mwcats".toList (by decide) (by decide)
    (by intro s hs hq
        fin_cases hs <;> revert hq <;> decide)


theorem dropWhile_space_of_head_ne {l : List Char} (h : l.head? ≠ some ' ') :
    l.dropWhile (fun x => x = ' ') = l := by
  cases l with
  | nil => rfl
  | cons x t =>
    have hx : x ≠ ' ' := by
      intro hq
      exact h (by rw [hq]; rfl)
    exact dropWhile_head_false rfl (by simp [hx])

/-- C2 (amended): hex n looks only at the first n characters. It succeeds
exactly when they are n hex digits whose value fits in u32, consuming exactly
those n characters and returning their base-16 value, regardless of any
further hex digits; it fails when the hex run within the first n characters
is shorter than n. -/
theorem c2_hex_exact_width (n : Nat) (l : List Char) :
    (n ≤ l.length → (∀ c ∈ l.take n, isHexD c = true) →
      hexVal (l.take n) < 2 ^ 32 →
      map.hex n l = some (l.drop n, hexVal (l.take n))) ∧
    (((l.take n).takeWhile isHexD).length < n → map.hex n l = none) := by
  constructor
  · intro hlen hhex hfit
    have ht : (l.take n).takeWhile isHexD = l.take n := takeWhile_all hhex
    have hlt : (l.take n).length = n := by
      rw [List.length_take]
      omega
    show pmapRes (ptakeWhileMN n n isHexD) hexU32 l = _
    refine pmapRes_eq_some.mpr ⟨l.take n,
      ptakeWhileMN_eq_some.mpr ⟨ht.symm, by simp [hlt], by rw [hlt]⟩, ?_⟩
    unfold hexU32
    rw [if_pos hfit]
  · intro hshort
    show pmapRes (ptakeWhileMN n n isHexD) hexU32 l = none
    unfold pmapRes ptakeWhileMN
    rw [if_neg (by omega)]
    rfl

theorem c2_hex_exact_width_witness :
    map.hex 2 "1f2".toList =
      some ("1f2".toList.drop 2, hexVal ("1f2".toList.take 2)) ∧
    map.hex 2 "1g2".toList = none :=
  ⟨(c2_hex_exact_width 2 "1f2".toList).1 (by decide) (by decide) (by decide),
   (c2_hex_exact_width 2 "1g2".toList).2 (by decide)⟩

/-- C7: no line is both a main memory-table row and a debug row: a full match
of the main entry parser has length 45 while a full match of debug_entry has
length 43, so the two cannot fully consume the same input. -/
theorem c7_memory_rows_disjoint (l : List Char) (e1 e2 : memory_table.Entry)
    (h1 : memory_table.entry l = some ([], e1)) :
    memory_table.debug_entry l ≠ some ([], e2) := by
  intro h2
  obtain ⟨sp, fld, a8, b8, c8, hl3, -, hsf, -, -, halen, hblen, hclen⟩ := entry_shape h1
  obtain ⟨sp2, fld2, a6, b82, hl4, -, hsf2, -, halen2, hblen2⟩ := debug_entry_shape h2
  have hL1 := congrArg List.length hl3
  have hL2 := congrArg List.length hl4
  simp only [List.length_append, List.length_cons, List.length_nil,
    List.length_replicate] at hL1 hL2
  omega

theorem c7_memory_rows_disjoint_witness :
    memory_table.entry "            .init  80003100 000023a8 000001c0".toList =
      some ([], { data := memory_table.Data.Main map.SectionName.Init 0x80003100,
                  size := 0x23a8, file_addr := 0x1c0 }) ∧
    memory_table.debug_entry "            .init  80003100 000023a8 000001c0".toList ≠
      some ([], { data := memory_table.Data.Main map.SectionName.Init 0x80003100,
                  size := 0x23a8, file_addr := 0x1c0 }) :=
  ⟨by decide,
   c7_memory_rows_disjoint "            .init  80003100 000023a8 000001c0".toList
     { data := memory_table.Data.Main map.SectionName.Init 0x80003100,
       size := 0x23a8, file_addr := 0x1c0 }
     { data := memory_table.Data.Main map.SectionName.Init 0x80003100,
       size := 0x23a8, file_addr := 0x1c0 }
     (by decide)⟩

/-- C8: tree depth is the printed number, not the indentation: whatever the
length m of the leading space run, a successful node parse means the rest of
the line starts with a digit run followed by the "] " marker, and the node
depth is the decimal value of that digit run. -/
theorem c8_tree_depth_is_printed_number (m : Nat) (l r : List Char) (nd : tree.Node)
    (hh : l.head? ≠ some ' ')
    (h : tree.node (List.replicate m ' ' ++ l) = some (r, nd)) :
    ∃ ds rest, l = ds ++ ']' :: ' ' :: rest ∧ ds ≠ [] ∧
      (∀ c ∈ ds, c.isDigit = true) ∧ nd.depth = decVal ds := by
  obtain ⟨ds, rest, heq, hne, hdig, hdep⟩ := node_shape h
  rw [dropWhile_append_all (fun c hc => by simp [List.eq_of_mem_replicate hc]) l,
      dropWhile_space_of_head_ne hh] at heq
  exact ⟨ds, rest, heq, hne, hdig, hdep⟩

theorem c8_tree_depth_is_printed_number_witness :
    ("19] _stack_addr found as linker generated symbol".toList.head? ≠ some ' ') ∧
    tree.node (List.replicate 3 ' ' ++
        "19] _stack_addr found as linker generated symbol".toList) =
      some ([], { depth := 19, data := tree.Data.Linker "_stack_addr".toList }) ∧
    ∃ ds rest, "19] _stack_addr found as linker generated symbol".toList =
        ds ++ ']' :: ' ' :: rest ∧ ds ≠ [] ∧ (∀ c ∈ ds, c.isDigit = true) ∧
      ({ depth := 19, data := tree.Data.Linker "_stack_addr".toList } : tree.Node).depth =
        decVal ds :=
  ⟨by decide, by decide,
   c8_tree_depth_is_printed_number 3
     "19] _stack_addr found as linker generated symbol".toList []
     { depth := 19, data := tree.Data.Linker "_stack_addr".toList }
     (by decide) (by decide)⟩


theorem pseq_none_left {α β : Type} {p : P α} {q : P β} {l : List Char}
    (h : p l = none) : pseq p q l = none := by
  unfold pseq
  rw [h]
  rfl

theorem pseq_none_right {α β : Type} {p : P α} {q : P β} {l m : List Char} {v : α}
    (hp : p l = some (m, v)) (hq : q m = none) : pseq p q l = none := by
  unfold pseq
  rw [hp]
  simp [hq]

theorem pallConsuming_some {α : Type} {p : P α} {l : List Char} {v : α}
    (h : p l = some ([], v)) : pallConsuming p l = some ([], v) := by
  unfold pallConsuming
  rw [h]

theorem ptakeWhile1_cons_pos {pr : Char → Bool} {c : Char} {t : List Char}
    (h : pr c = true) :
    ptakeWhile1 pr (c :: t) = some ((c :: t).dropWhile pr, c :: t.takeWhile pr) := by
  have hx : (c :: t).takeWhile pr = c :: t.takeWhile pr := by
    rw [List.takeWhile_cons, if_pos h]
  unfold ptakeWhile1
  rw [hx]

theorem ptakeWhile1_cons_neg {pr : Char → Bool} {c : Char} {t : List Char}
    (h : pr c = false) : ptakeWhile1 pr (c :: t) = none := by
  have hx : (c :: t).takeWhile pr = [] := takeWhile_head_false rfl h
  unfold ptakeWhile1
  rw [hx]

theorem dropWhile_of_takeWhile_nil {p : Char → Bool} {l : List Char}
    (h : l.takeWhile p = []) : l.dropWhile p = l := by
  cases l with
  | nil => rfl
  | cons x t =>
    rw [List.takeWhile_cons] at h
    by_cases hp : p x = true
    · rw [if_pos hp] at h
      exact List.noConfusion h
    · rw [List.dropWhile_cons, if_neg hp]

theorem length_dropWhile_le (p : Char → Bool) (l : List Char) :
    (l.dropWhile p).length ≤ l.length := by
  induction l with
  | nil => simp
  | cons x t ih =>
    rw [List.dropWhile_cons]
    by_cases hp : p x = true
    · rw [if_pos hp]
      exact le_trans ih (by simp)
    · rw [if_neg hp]

theorem mem_of_mem_dropWhile {p : Char → Bool} {l : List Char} {x : Char}
    (h : x ∈ l.dropWhile p) : x ∈ l := by
  induction l with
  | nil => simp at h
  | cons y t ih =>
    rw [List.dropWhile_cons] at h
    by_cases hp : p y = true
    · rw [if_pos hp] at h
      exact List.mem_cons_of_mem y (ih h)
    · rw [if_neg hp] at h
      exact h

/-! ### C10: origin requires a trailing space after a bare filename -/

theorem filename_split (a b rest : List Char) (ha : a ≠ [])
    (hac : ∀ c ∈ a, (windows.is_filename c && !(c = '.')) = true)
    (hb : b ≠ []) (hbc : ∀ c ∈ b, (windows.is_filename c && !isAsciiWs c) = true)
    (hrest : rest.takeWhile (fun c => windows.is_filename c && !isAsciiWs c) = []) :
    windows.filename (a ++ '.' :: (b ++ rest)) = some (rest, a ++ '.' :: b) := by
  unfold windows.filename
  refine precognize_eq_some.mpr ⟨(a, b), ?_, ?_⟩
  · refine psepPair_eq_some.mpr ⟨'.' :: (b ++ rest), b ++ rest, '.', ?_, ?_, ?_⟩
    · have hh : ('.' :: (b ++ rest)).head? = some '.' := rfl
      refine ptakeWhile1_eq_some.mpr ⟨?_, ?_, ha⟩
      · rw [takeWhile_append_all hac, takeWhile_head_false hh (by decide),
          List.append_nil]
      · rw [dropWhile_append_all hac, dropWhile_head_false hh (by decide)]
    · exact pchar_eq_some.mpr ⟨rfl, rfl⟩
    · refine ptakeWhile1_eq_some.mpr ⟨?_, ?_, hb⟩
      · rw [takeWhile_append_all hbc, hrest, List.append_nil]
      · rw [dropWhile_append_all hbc, dropWhile_of_takeWhile_nil hrest]
  · have hL : a ++ '.' :: (b ++ rest) = (a ++ '.' :: b) ++ rest := by
      simp [List.append_assoc]
    rw [hL]
    have hlen : ((a ++ '.' :: b) ++ rest).length - rest.length = (a ++ '.' :: b).length := by
      simp only [List.length_append, List.length_cons]
      omega
    rw [hlen, List.take_left]

/-- C10: a source-less origin needs its trailing space. -/
theorem c10_origin_trailing_space (a b : List Char) (ha : a ≠ [])
    (hac : ∀ c ∈ a, (windows.is_filename c && !(c = '.')) = true)
    (hb : b ≠ []) (hbc : ∀ c ∈ b, (windows.is_filename c && !isAsciiWs c) = true) :
    map.origin (a ++ '.' :: b) = none ∧
    map.origin ((a ++ '.' :: b) ++ [' ']) =
      some ([], { obj := a ++ '.' :: b, src := none, asm := false }) := by
  have hfile1 : windows.filename (a ++ '.' :: b) = some ([], a ++ '.' :: b) := by
    have h0 := filename_split a b [] ha hac hb hbc rfl
    rwa [List.append_nil] at h0
  constructor
  · exact pmap_none (pseq_none_left (pmap_none (pseq_none_right hfile1 rfl)))
  · have hfile2 : windows.filename ((a ++ '.' :: b) ++ [' ']) =
        some ([' '], a ++ '.' :: b) := by
      have h0 := filename_split a b [' '] ha hac hb hbc (by decide)
      rw [show a ++ '.' :: (b ++ [' ']) = (a ++ '.' :: b) ++ [' '] from by
        simp [List.append_assoc]] at h0
      exact h0
    unfold map.origin
    refine pmap_eq_some.mpr ⟨(a ++ '.' :: b, (none, false)), ?_, rfl⟩
    refine psepPair_eq_some.mpr ⟨[' '], [], ' ', hfile2, rfl, rfl⟩

theorem c10_origin_trailing_space_witness :
    map.origin "__mem.o".toList = none ∧
    map.origin "__mem.o ".toList =
      some ([], { obj := "__mem.o".toList, src := none, asm := false }) := by
  have h := c10_origin_trailing_space "__mem".toList "o".toList (by decide) (by decide)
    (by decide) (by decide)
  have hX : "__mem".toList ++ '.' :: "o".toList = "__mem.o".toList := by decide
  have hY : "__mem.o".toList ++ [' '] = "__mem.o ".toList := by decide
  rw [hX, hY] at h
  exact h

/-! ### C4: identifier never produces StringBase -/

theorem many0CountAux_nil {α : Type} {B : P α} {fuel : Nat} (h : B [] = none) :
    many0CountAux B fuel [] = some ([], 0) := by
  cases fuel with
  | zero => rfl
  | succ n =>
    simp only [many0CountAux]
    rw [h]

theorem many0CountAux_step {α : Type} {B : P α} {c : Char} {t r : List Char} {v : α}
    {n : Nat} (hB : B (c :: t) = some (r, v)) (hlt : r.length < t.length + 1)
    (hrec : ∃ k, many0CountAux B n r = some ([], k)) :
    ∃ k, many0CountAux B (n + 1) (c :: t) = some ([], k) := by
  obtain ⟨k, hk⟩ := hrec
  refine ⟨k + 1, ?_⟩
  simp only [many0CountAux]
  rw [hB]
  show (if r.length < (c :: t).length then
      match many0CountAux B n r with
      | some (r2, n2) => some (r2, n2 + 1)
      | none => none
    else none) = some ([], k + 1)
  rw [if_pos (by simpa using hlt), hk]

theorem many0CountAux_cpp_full (fuel : Nat) :
    ∀ l : List Char, l.length ≤ fuel →
      (∀ x ∈ l, (x.isAlphanum || ("_@$<>,-".toList.contains x)) = true) →
      ∃ k, many0CountAux (por alphanumeric1 (pisA "_@$<>,-".toList)) fuel l =
        some ([], k) := by
  induction fuel with
  | zero =>
    intro l hlen hcls
    cases l with
    | nil => exact ⟨0, rfl⟩
    | cons c t => simp at hlen
  | succ n ih =>
    intro l hlen hcls
    cases l with
    | nil => exact ⟨0, many0CountAux_nil rfl⟩
    | cons c t =>
      simp only [List.length_cons] at hlen
      cases hal : c.isAlphanum with
      | true =>
        have hB : por alphanumeric1 (pisA "_@$<>,-".toList) (c :: t) =
            some ((c :: t).dropWhile Char.isAlphanum, c :: t.takeWhile Char.isAlphanum) := by
          unfold por alphanumeric1
          rw [ptakeWhile1_cons_pos hal]
        have hdrop : (c :: t).dropWhile Char.isAlphanum = t.dropWhile Char.isAlphanum := by
          simp [List.dropWhile_cons, hal]
        refine many0CountAux_step hB ?_ ?_
        · rw [hdrop]
          have := length_dropWhile_le Char.isAlphanum t
          omega
        · rw [hdrop]
          exact ih (t.dropWhile Char.isAlphanum)
            (by have := length_dropWhile_le Char.isAlphanum t; omega)
            (fun x hx => hcls x (List.mem_cons_of_mem c (mem_of_mem_dropWhile hx)))
      | false =>
        have hcon : ("_@$<>,-".toList.contains c) = true := by
          have h2 := hcls c (by simp)
          rw [hal] at h2
          simpa using h2
        have hB : por alphanumeric1 (pisA "_@$<>,-".toList) (c :: t) =
            some ((c :: t).dropWhile (fun x => "_@$<>,-".toList.contains x),
              c :: t.takeWhile (fun x => "_@$<>,-".toList.contains x)) := by
          unfold por alphanumeric1 pisA
          rw [ptakeWhile1_cons_neg hal, ptakeWhile1_cons_pos hcon]
        have hdrop : (c :: t).dropWhile (fun x => "_@$<>,-".toList.contains x) =
            t.dropWhile (fun x => "_@$<>,-".toList.contains x) := by
          rw [List.dropWhile_cons, if_pos hcon]
        refine many0CountAux_step hB ?_ ?_
        · rw [hdrop]
          have := length_dropWhile_le (fun x => "_@$<>,-".toList.contains x) t
          omega
        · rw [hdrop]
          exact ih (t.dropWhile (fun x => "_@$<>,-".toList.contains x))
            (by have := length_dropWhile_le (fun x => "_@$<>,-".toList.contains x) t; omega)
            (fun x hx => hcls x (List.mem_cons_of_mem c (mem_of_mem_dropWhile hx)))

theorem cpp_name_full {c : Char} {t : List Char}
    (hhd : (c.isAlpha || ("_@".toList.contains c)) = true)
    (hcls : ∀ x ∈ c :: t, (x.isAlphanum || ("_@$<>,-".toList.contains x)) = true) :
    map.cpp_name (c :: t) = some ([], c :: t) := by
  unfold map.cpp_name
  have hloop : ∀ m : List Char, (∀ x ∈ m, (x.isAlphanum ||
      ("_@$<>,-".toList.contains x)) = true) →
      ∃ k, many0Count (por alphanumeric1 (pisA "_@$<>,-".toList)) m = some ([], k) :=
    fun m hm => many0CountAux_cpp_full m.length m le_rfl hm
  cases hal : c.isAlpha with
  | true =>
    have hH : por alpha1 (pisA "_@".toList) (c :: t) =
        some ((c :: t).dropWhile Char.isAlpha, c :: t.takeWhile Char.isAlpha) := by
      unfold por alpha1
      rw [ptakeWhile1_cons_pos hal]
    obtain ⟨k, hk⟩ := hloop ((c :: t).dropWhile Char.isAlpha)
      (fun x hx => hcls x (mem_of_mem_dropWhile hx))
    refine precognize_eq_some.mpr ⟨((c :: t.takeWhile Char.isAlpha), k), ?_, by
      simp [List.take_length]⟩
    exact pseq_eq_some.mpr ⟨(c :: t).dropWhile Char.isAlpha,
      c :: t.takeWhile Char.isAlpha, k, hH, hk, rfl⟩
  | false =>
    have hcon : ("_@".toList.contains c) = true := by
      rw [hal] at hhd
      simpa using hhd
    have hH : por alpha1 (pisA "_@".toList) (c :: t) =
        some ((c :: t).dropWhile (fun x => "_@".toList.contains x),
          c :: t.takeWhile (fun x => "_@".toList.contains x)) := by
      unfold por alpha1 pisA
      rw [ptakeWhile1_cons_neg hal, ptakeWhile1_cons_pos hcon]
    obtain ⟨k, hk⟩ := hloop ((c :: t).dropWhile (fun x => "_@".toList.contains x))
      (fun x hx => hcls x (mem_of_mem_dropWhile hx))
    refine precognize_eq_some.mpr ⟨((c :: t.takeWhile (fun x => "_@".toList.contains x)), k),
      ?_, by simp [List.take_length]⟩
    exact pseq_eq_some.mpr ⟨(c :: t).dropWhile (fun x => "_@".toList.contains x),
      c :: t.takeWhile (fun x => "_@".toList.contains x), k, hH, hk, rfl⟩

/-- C4: the identifier parser never returns the StringBase variant. -/
theorem c4_identifier_not_string_base (l r : List Char) (v : map.Identifier)
    (h : map.identifier l = some (r, v)) : isStrBase v = false := by
  unfold map.identifier at h
  obtain ⟨w, m, hp, hq⟩ := pandThen_eq_some.mp h
  rcases por_eq_some.mp hq with h1 | ⟨-, hq⟩
  · obtain ⟨-, hin⟩ := pallConsuming_eq_some.mp h1
    obtain ⟨u, -, rfl⟩ := pmap_eq_some.mp hin
    rfl
  rcases por_eq_some.mp hq with h1 | ⟨-, hq⟩
  · obtain ⟨-, hin⟩ := pallConsuming_eq_some.mp h1
    obtain ⟨u, -, rfl⟩ := pmap_eq_some.mp hin
    rfl
  rcases por_eq_some.mp hq with h1 | ⟨-, hq⟩
  · obtain ⟨-, hin⟩ := pallConsuming_eq_some.mp h1
    obtain ⟨u, -, rfl⟩ := pmap_eq_some.mp hin
    rfl
  rcases por_eq_some.mp hq with h1 | ⟨-, hq⟩
  · obtain ⟨-, hin⟩ := pallConsuming_eq_some.mp h1
    obtain ⟨u, -, rfl⟩ := pmap_eq_some.mp hin
    rfl
  rcases por_eq_some.mp hq with h1 | ⟨-, hq⟩
  · obtain ⟨-, hin⟩ := pallConsuming_eq_some.mp h1
    obtain ⟨u, -, rfl⟩ := pmap_eq_some.mp hin
    rfl
  rcases por_eq_some.mp hq with h1 | ⟨h6, hq⟩
  · obtain ⟨-, hin⟩ := pallConsuming_eq_some.mp h1
    obtain ⟨u, -, rfl⟩ := pmap_eq_some.mp hin
    rfl
  -- last alternative: string_base fully consumed the token; derive a contradiction
  exfalso
  obtain ⟨-, hsb⟩ := pallConsuming_eq_some.mp hq
  unfold map.string_base at hsb
  obtain ⟨m1, a1, htag, hrest⟩ := ppre_eq_some.mp hsb
  obtain ⟨hw, -⟩ := ptag_eq_some.mp htag
  obtain ⟨u2, hdig, -⟩ := pmap_eq_some.mp hrest
  obtain ⟨ds, hds, -⟩ := pmapRes_eq_some.mp hdig
  obtain ⟨hds1, hds2, hdsne⟩ := ptakeWhile1_eq_some.mp hds
  have hm1 : m1 = ds := by
    conv_lhs => rw [← List.takeWhile_append_dropWhile Char.isDigit m1]
    rw [← hds1, ← hds2, List.append_nil]
  have hdall : ∀ x ∈ ds, x.isDigit = true := by
    intro x hx
    rw [hds1] at hx
    exact List.mem_takeWhile_imp hx
  have hwform : w = '@' :: ("stringBase".toList ++ ds) := by
    rw [hw, hm1]
    rfl
  have hfull : map.cpp_name w = some ([], w) := by
    rw [hwform]
    refine cpp_name_full (by decide) ?_
    intro x hx
    rw [← List.cons_append] at hx
    rcases List.mem_append.mp hx with hx1 | hx2
    · fin_cases hx1 <;> decide
    · simp [isDigit_isAlphanum (hdall x hx2)]
  have h6some : pallConsuming (pmap map.cpp_name map.Identifier.Mangled) w =
      some ([], map.Identifier.Mangled w) :=
    pallConsuming_some (pmap_eq_some.mpr ⟨w, hfull, rfl⟩)
  rw [h6] at h6some
  exact Option.noConfusion h6some

theorem c4_identifier_not_string_base_witness :
    map.identifier "@stringBase0".toList =
      some ([], map.Identifier.Mangled "@stringBase0".toList) ∧
    isStrBase (map.Identifier.Mangled "@stringBase0".toList) = false :=
  ⟨by decide,
   c4_identifier_not_string_base "@stringBase0".toList []
     (map.Identifier.Mangled "@stringBase0".toList) (by decide)⟩


end CW
